import Mathlib

/-!
Verification development for the ZlibBoost Liberty extractor/patcher
(src/parser/lib_parser_api.cpp, src/parser/lib_modify_api.cpp).

Modelling conventions:
* The external si2dr attribute-tree library is out of scope for the spec; we
  embed the tree it exposes as a first-order value (`LibGroup`, `LibAttr`,
  `AttrVal`).  Each si2dr call used by the source is given a direct
  functional counterpart (find attribute by name, read scalars, delete and
  create attributes, iterate subgroups).  Iterator acquisition/release has no
  observable effect on the data and is not represented.
* C++ `double` is modelled as `ℚ` (exact decimal arithmetic).  The one place
  where binary rounding versus decimal matters for a claim is the LUT codec,
  where the decisive behaviour - `std::ostringstream` formatting a double
  with the default precision of 6 significant digits - is modelled exactly
  (see `formatFloat`).
* Possible failures of deleting or creating a complex attribute (soft errors
  absorbed by the source) are modelled by a `SoftOracle` environment that
  decides success of each delete/create; `noFail` is the environment where
  the library never fails such a call.
* File I/O results (the patch document, the Liberty read, the Liberty write)
  are inputs of the embedded entry points (`Option` for read results, a
  `Bool` for write success), since they belong to external collaborators.
-/

/-- A scalar value stored in the tree (si2dr simple-attribute value, or one
element of a complex attribute's value list). -/
inductive AttrVal where
  | str (s : String)
  | flt (q : ℚ)
  | int (n : Int)
deriving DecidableEq

/-- An attribute of a tree group: simple (one scalar) or complex (a value
list), as in the si2dr interface. -/
inductive LibAttr where
  | simple (name : String) (val : AttrVal)
  | complex (name : String) (vals : List AttrVal)
deriving DecidableEq

/-- Name of an attribute. -/
def attrName : LibAttr → String
  | .simple n _ => n
  | .complex n _ => n

/-- A group of the attribute tree: its type tag, declared names, attributes
and subgroups (si2dr group). -/
inductive LibGroup : Type where
  | mk (groupType : String) (names : List String) (attrs : List LibAttr)
      (subs : List LibGroup)

/-- Type tag of a group (si2drGroupGetGroupType). -/
def LibGroup.groupType : LibGroup → String
  | .mk t _ _ _ => t

/-- Declared names of a group (si2drGroupGetNames iteration). -/
def LibGroup.names : LibGroup → List String
  | .mk _ n _ _ => n

/-- Attribute list of a group. -/
def LibGroup.attrs : LibGroup → List LibAttr
  | .mk _ _ a _ => a

/-- Subgroup list of a group (si2drGroupGetGroups iteration). -/
def LibGroup.subs : LibGroup → List LibGroup
  | .mk _ _ _ s => s

/-- The group with its attribute list replaced (in-place attribute edits). -/
def LibGroup.setAttrs : LibGroup → List LibAttr → LibGroup
  | .mk t n _ s, a => .mk t n a s

/-- The group with its subgroup list replaced (in-place subgroup edits). -/
def LibGroup.setSubs : LibGroup → List LibGroup → LibGroup
  | .mk t n a _, s => .mk t n a s

/-- si2drGroupFindAttrByName on an attribute list: first attribute with the
given name, none when the result is the null id. -/
def findAttrL (attrs : List LibAttr) (n : String) : Option LibAttr :=
  attrs.find? (fun a => attrName a == n)

/-- si2drGroupFindAttrByName on a group. -/
def findAttr (g : LibGroup) (n : String) : Option LibAttr :=
  findAttrL g.attrs n

/-- si2drSimpleAttrGetStringValue, including on the null id: a non-null
string comes back only from a simple string-valued attribute. -/
def getStr : Option LibAttr → Option String
  | some (.simple _ (.str s)) => some s
  | _ => none

/-- si2drSimpleAttrGetFloat64Value of an attribute (callers null-check
first); a non-float simple attribute reads as 0 (the error is absorbed). -/
def getFloat : LibAttr → ℚ
  | .simple _ (.flt q) => q
  | .simple _ (.int n) => (n : ℚ)
  | _ => 0

/-- si2drSimpleAttrGetInt32Value of an attribute; a float value is
truncated, anything else reads as 0. -/
def getInt : LibAttr → Int
  | .simple _ (.int n) => n
  | .simple _ (.flt q) => ⌊q⌋
  | _ => 0

/-- si2drObjectDelete of the first attribute with the given name (the one
si2drGroupFindAttrByName returned); no change when none is present. -/
def eraseFirstAttr : List LibAttr → String → List LibAttr
  | [], _ => []
  | a :: rest, n =>
    if attrName a == n then rest else a :: eraseFirstAttr rest n

/-- si2drSimpleAttrSetFloat64Value on the first attribute with the given
name: a simple attribute's value is replaced; setting a complex attribute
errors and is absorbed (no change), as is setting a missing one. -/
def setSimpleFloatAttrs : List LibAttr → String → ℚ → List LibAttr
  | [], _, _ => []
  | a :: rest, n, q =>
    if attrName a == n then
      (match a with
       | .simple _ _ => .simple n (.flt q)
       | .complex _ _ => a) :: rest
    else a :: setSimpleFloatAttrs rest n q

/-- si2drSimpleAttrSetStringValue, same discipline as the float setter. -/
def setSimpleStrAttrs : List LibAttr → String → String → List LibAttr
  | [], _, _ => []
  | a :: rest, n, s =>
    if attrName a == n then
      (match a with
       | .simple _ _ => .simple n (.str s)
       | .complex _ _ => a) :: rest
    else a :: setSimpleStrAttrs rest n s

/-- Find-or-create-then-set of a simple float attribute, the pattern of
updateLeakagePower: a missing attribute is created (appended) and set. -/
def setOrCreateSimpleFloat (attrs : List LibAttr) (n : String) (q : ℚ) :
    List LibAttr :=
  match findAttrL attrs n with
  | some _ => setSimpleFloatAttrs attrs n q
  | none => attrs ++ [.simple n (.flt q)]

/-- Find-or-create-then-set of a simple string attribute. -/
def setOrCreateSimpleStr (attrs : List LibAttr) (n : String) (s : String) :
    List LibAttr :=
  match findAttrL attrs n with
  | some _ => setSimpleStrAttrs attrs n s
  | none => attrs ++ [.simple n (.str s)]

/-- PVT of lib_parser_api.hpp: voltage, temperature, process corner list. -/
structure PVT where
  voltage : ℚ := 0
  temperature : Int := 0
  process : List Int := []
deriving DecidableEq

/-- DataLut of lib_parser_api.hpp. -/
structure DataLut where
  index1 : List ℚ := []
  index2 : List ℚ := []
  values : List (List ℚ) := []
deriving DecidableEq

/-- TimingArc of lib_parser_api.hpp. -/
structure TimingArc where
  when : String := ""
  relatedPin : String := ""
  timingType : String := ""
  timingSense : String := ""
  cellRise : DataLut := {}
  riseTransition : DataLut := {}
  cellFall : DataLut := {}
  fallTransition : DataLut := {}
  riseConstrain : DataLut := {}
  fallConstrain : DataLut := {}
deriving DecidableEq

/-- PowerArc of lib_parser_api.hpp (rise/fall power tables are stored in the
cellRise/cellFall slots, as in the source). -/
structure PowerArc where
  when : String := ""
  relatedPin : String := ""
  relatedPGpin : String := ""
  cellRise : DataLut := {}
  cellFall : DataLut := {}
deriving DecidableEq

/-- outputPinInfo of lib_parser_api.hpp. -/
structure outputPinInfo where
  pinName : String := ""
  function : String := ""
  timingArcs : List TimingArc := []
  powerArcs : List PowerArc := []
deriving DecidableEq

/-- inputPinInfo of lib_parser_api.hpp. -/
structure inputPinInfo where
  pinName : String := ""
  capacitance : Option ℚ := none
  rise_capacitance : Option ℚ := none
  fall_capacitance : Option ℚ := none
  rise_capacitance_range : Option ℚ × Option ℚ := (none, none)
  fall_capacitance_range : Option ℚ × Option ℚ := (none, none)
  timingArcs : List TimingArc := []
  powerArcs : List PowerArc := []
deriving DecidableEq

/-- LeakagePower of lib_parser_api.hpp. -/
structure LeakagePower where
  value : ℚ := 0
  when : String := ""
  relatedPGpin : String := ""
deriving DecidableEq

/-- CellInfo of lib_parser_api.hpp. -/
structure CellInfo where
  cellName : String := ""
  leakages : List LeakagePower := []
  outputPins : List outputPinInfo := []
  inputPins : List inputPinInfo := []
deriving DecidableEq

/-! ## LUT string codec

The Patcher writes each row of a LUT with `std::ostringstream` default
formatting (`oss << x` for a double, with `", "` between elements): this is
printf `%g` with a precision of 6 significant digits.  `formatFloat` models
that formatting over exact rationals; exact halves round up (the one point
where the binary double would decide the tie, immaterial to the claims).
The Extractor reads a row back by splitting the stored string on `,`
(`std::getline` with a `,` delimiter), skipping empty tokens and converting
each remaining token with `std::stod`. -/

/-- Decimal digit character. -/
def digitChar (d : ℕ) : Char := Char.ofNat (48 + d)

/-- Decimal digits of a natural number, most significant first (fuel-based,
fuel at least the number itself). -/
def natDigitsAux : ℕ → ℕ → List Char
  | 0, _ => []
  | fuel + 1, n =>
    if n = 0 then [] else natDigitsAux fuel (n / 10) ++ [digitChar (n % 10)]

/-- Decimal digit string of a natural number. -/
def natDigits (n : ℕ) : List Char :=
  if n = 0 then ['0'] else natDigitsAux (n + 1) n

/-- Number of times 10 divides into n keeping the quotient at least 10
(so `natLog10 n` is the decimal exponent of n for n at least 1). -/
def natLog10Aux : ℕ → ℕ → ℕ
  | 0, _ => 0
  | fuel + 1, n => if n < 10 then 0 else natLog10Aux fuel (n / 10) + 1

/-- Floor of the base-10 logarithm of a positive natural number. -/
def natLog10 (n : ℕ) : ℕ := natLog10Aux n n

/-- Strip trailing `'0'` characters (what `%g` does to the fraction). -/
def dropTrailingZeros (ds : List Char) : List Char :=
  (ds.reverse.dropWhile (fun c => c = '0')).reverse

/-- The decimal exponent of the positive rational n / d: the unique e with
10 ^ e <= n / d < 10 ^ (e + 1). -/
def decExponent (n d : ℕ) : Int :=
  let e0 : Int := (natLog10 n : Int) - (natLog10 d : Int)
  -- is n / d < 10 ^ e0 ?  (e0 is within one of the true exponent)
  let lt : Bool :=
    if 0 ≤ e0 then n < d * 10 ^ e0.toNat else n * 10 ^ (-e0).toNat < d
  if lt then e0 - 1 else e0

/-- Round n / d * 10 ^ k to the nearest integer (halves up), k possibly
negative. -/
def roundScaled (n d : ℕ) (k : Int) : ℕ :=
  if 0 ≤ k then (2 * n * 10 ^ k.toNat + d) / (2 * d)
  else (2 * n + d * 10 ^ (-k).toNat) / (2 * d * 10 ^ (-k).toNat)

/-- Print a 6-digit significand m (100000 <= m <= 999999) with decimal
exponent e the way `%g` does: fixed notation when -4 <= e < 6, scientific
otherwise, trailing fraction zeros stripped, the exponent padded to two
digits. -/
def formatSig (m : ℕ) (e : Int) : List Char :=
  let ds := natDigits m
  if -4 ≤ e ∧ e < 6 then
    if 0 ≤ e then
      let ip := ds.take (e.toNat + 1)
      let fp := dropTrailingZeros (ds.drop (e.toNat + 1))
      ip ++ (if fp.isEmpty then [] else '.' :: fp)
    else
      '0' :: '.' :: (List.replicate (-e - 1).toNat '0' ++ dropTrailingZeros ds)
  else
    let fp := dropTrailingZeros ds.tail
    let mant := ds.headD '0' :: (if fp.isEmpty then [] else '.' :: fp)
    let ea := natDigits e.natAbs
    mant ++ 'e' :: (if e < 0 then '-' else '+') ::
      (if ea.length < 2 then '0' :: ea else ea)

/-- `%g`-format (precision 6) of a positive rational n / d, without sign:
round to a 6-significant-digit mantissa (renormalizing when rounding
overflows to 10^6) and print it. -/
def formatPos (n d : ℕ) : List Char :=
  let e1 := decExponent n d
  let m1 := roundScaled n d (5 - e1)
  if m1 = 1000000 then formatSig 100000 (e1 + 1) else formatSig m1 e1

/-- `operator<<(std::ostream, double)` with default flags and precision 6,
over exact rationals. -/
def formatFloat (q : ℚ) : List Char :=
  if q.num = 0 then ['0']
  else if q.num < 0 then '-' :: formatPos q.num.natAbs q.den
  else formatPos q.num.natAbs q.den

/-- The `", "`-join the Patcher builds in addArcLut (one ostringstream per
row: `oss << row[i]` then `", "` while not last). -/
def encodeRowChars : List ℚ → List Char
  | [] => []
  | [x] => formatFloat x
  | x :: y :: rest => formatFloat x ++ ',' :: ' ' :: encodeRowChars (y :: rest)

/-- The row string handed to si2drComplexAttrAddStringValue. -/
def encodeRow (xs : List ℚ) : String := String.mk (encodeRowChars xs)

/-- Split on a delimiter character, `std::getline(ss, token, sep)` style
(tokens between delimiters; one final empty token for a trailing delimiter,
dropped later with every other empty token). -/
def splitChar (sep : Char) : List Char → List (List Char)
  | [] => [[]]
  | c :: rest =>
    if c = sep then [] :: splitChar sep rest
    else
      match splitChar sep rest with
      | [] => [[c]]
      | t :: ts => (c :: t) :: ts

/-- Whitespace as `std::stod` (strtod) skips it. -/
def isSpaceChar (c : Char) : Bool :=
  c = ' ' ∨ c = '\t' ∨ c = '\n' ∨ c = '\r' ∨ c = '\x0b' ∨ c = '\x0c'

/-- Numeric value of a digit character. -/
def digitVal (c : Char) : ℕ := c.toNat - 48

/-- Natural number denoted by a digit string. -/
def natOfDigits (ds : List Char) : ℕ :=
  ds.foldl (fun a c => a * 10 + digitVal c) 0

/-- Exponent part as strtod reads it after `e`/`E`: optional sign and
digits; without digits the exponent part is not consumed (value 0). -/
def readExp (cs : List Char) : Int :=
  let (neg, r) :=
    match cs with
    | '-' :: r => (true, r)
    | '+' :: r => (false, r)
    | r => (false, r)
  let ds := r.takeWhile Char.isDigit
  if ds.isEmpty then 0
  else if neg then -(natOfDigits ds : Int) else (natOfDigits ds : Int)

/-- `std::stod` on a token: skip whitespace, optional sign, decimal digits
with an optional point and an optional exponent, ignore what follows; none
when no conversion is possible (the source lets that exception escape).
Hexadecimal, infinity and NaN forms are not modelled (the codec never
produces them). -/
def stodQ (s : List Char) : Option ℚ :=
  let s1 := s.dropWhile isSpaceChar
  let (neg, s2) :=
    match s1 with
    | '-' :: r => (true, r)
    | '+' :: r => (false, r)
    | r => (false, r)
  let ip := s2.takeWhile Char.isDigit
  let s3 := s2.dropWhile Char.isDigit
  let (fp, s4) :=
    match s3 with
    | '.' :: r => (r.takeWhile Char.isDigit, r.dropWhile Char.isDigit)
    | _ => ([], s3)
  if ip.isEmpty ∧ fp.isEmpty then none
  else
    let mant : ℚ := mkRat (natOfDigits (ip ++ fp) : Int) (10 ^ fp.length)
    let ex : Int :=
      match s4 with
      | 'e' :: r => readExp r
      | 'E' :: r => readExp r
      | _ => 0
    let scaled : ℚ :=
      if 0 ≤ ex then mkRat (mant.num * 10 ^ ex.toNat) mant.den
      else mkRat mant.num (mant.den * 10 ^ (-ex).toNat)
    some (if neg then mkRat (-scaled.num) scaled.den else scaled)

/-- `Option`-valued map over a list: the map fails when one element fails
(a thrown std::stod exception escaping the loop). -/
def optMapList {α β : Type} (f : α → Option β) : List α → Option (List β)
  | [] => some []
  | a :: as =>
    match f a with
    | some b => (optMapList f as).map (fun bs => b :: bs)
    | none => none

/-- One stored row string back to floats, as the Extractor's inner loop of
parseComplexAttrToFloats reads it: split on `,`, drop empty tokens, stod
each remaining token. -/
def decodeRowChars (cs : List Char) : Option (List ℚ) :=
  optMapList stodQ ((splitChar ',' cs).filter (fun t => !t.isEmpty))

/-- Row decoding on the stored string. -/
def decodeRow (s : String) : Option (List ℚ) := decodeRowChars s.data

/-! ## Extractor (lib_parser_api.cpp)

Extraction walks the tree once; any `std::stod` exception thrown on a
malformed stored token escapes every extraction routine (there is no catch),
so the extraction functions are `Option`-valued, `none` standing for that
escape.  Attribute reads are total: a missing attribute leaves the field at
its default, exactly as in the source. -/

/-- `Option`-valued left fold (a loop whose body may throw). -/
def optFold {α β : Type} (f : β → α → Option β) : List α → β → Option β
  | [], b => some b
  | a :: as, b =>
    match f b a with
    | some b2 => optFold f as b2
    | none => none

/-- parseComplexAttrToFloats: every stored value of a complex attribute, a
string value split on `,` with empty tokens skipped and the rest stod-ed,
a float value taken as is, other value types skipped. -/
def parseComplexAttrToFloats (a : LibAttr) : Option (List ℚ) :=
  match a with
  | .complex _ vals =>
    optFold
      (fun acc v =>
        match v with
        | .str s => (decodeRowChars s.data).map (fun xs => acc ++ xs)
        | .flt q => some (acc ++ [q])
        | _ => some acc)
      vals []
  | .simple _ _ => some []

/-- parseComplexAttrValuesToFloats: string values are additionally split on
line breaks first; empty lines and empty rows are skipped; non-string values
are ignored. -/
def parseComplexAttrValuesToFloats (a : LibAttr) : Option (List (List ℚ)) :=
  match a with
  | .complex _ vals =>
    optFold
      (fun acc v =>
        match v with
        | .str s =>
          optFold
            (fun acc2 line =>
              if line.isEmpty then some acc2
              else
                (optMapList stodQ
                    ((splitChar ',' line).filter (fun t => !t.isEmpty))).map
                  (fun row => if row.isEmpty then acc2 else acc2 ++ [row])
            )
            (splitChar '\n' s.data) acc
        | _ => some acc)
      vals []
  | .simple _ _ => some []

/-- fillDataLut: read index_1 / index_2 / values of a LUT subgroup into a
DataLut, each only when the attribute is present. -/
def fillDataLut (g : LibGroup) (lut : DataLut) : Option DataLut := do
  let lut1 ←
    match findAttr g "index_1" with
    | some a => (parseComplexAttrToFloats a).map (fun xs => { lut with index1 := xs })
    | none => some lut
  let lut2 ←
    match findAttr g "index_2" with
    | some a => (parseComplexAttrToFloats a).map (fun xs => { lut1 with index2 := xs })
    | none => some lut1
  match findAttr g "values" with
  | some a => (parseComplexAttrValuesToFloats a).map (fun vs => { lut2 with values := vs })
  | none => some lut2

/-- findTimingGroups: fill the six LUT slots of a timing arc from the
subgroups of its timing group (a later subgroup of the same type wins). -/
def findTimingGroups (tg : LibGroup) (arc : TimingArc) : Option TimingArc :=
  optFold
    (fun arc sub =>
      if sub.groupType == "cell_rise" then
        (fillDataLut sub arc.cellRise).map (fun l => { arc with cellRise := l })
      else if sub.groupType == "rise_transition" then
        (fillDataLut sub arc.riseTransition).map (fun l => { arc with riseTransition := l })
      else if sub.groupType == "cell_fall" then
        (fillDataLut sub arc.cellFall).map (fun l => { arc with cellFall := l })
      else if sub.groupType == "fall_transition" then
        (fillDataLut sub arc.fallTransition).map (fun l => { arc with fallTransition := l })
      else if sub.groupType == "rise_constraint" then
        (fillDataLut sub arc.riseConstrain).map (fun l => { arc with riseConstrain := l })
      else if sub.groupType == "fall_constraint" then
        (fillDataLut sub arc.fallConstrain).map (fun l => { arc with fallConstrain := l })
      else some arc)
    tg.subs arc

/-- findPowerGroups: the two LUT slots of a power arc. -/
def findPowerGroups (pg : LibGroup) (arc : PowerArc) : Option PowerArc :=
  optFold
    (fun arc sub =>
      if sub.groupType == "rise_power" then
        (fillDataLut sub arc.cellRise).map (fun l => { arc with cellRise := l })
      else if sub.groupType == "fall_power" then
        (fillDataLut sub arc.cellFall).map (fun l => { arc with cellFall := l })
      else some arc)
    pg.subs arc

/-- processTimingArcs: one TimingArc per `timing` subgroup of a pin, key
and sense attributes read with missing ones left at the empty string. -/
def processTimingArcs (pinGroup : LibGroup) (arcStorage : List TimingArc) :
    Option (List TimingArc) :=
  optFold
    (fun acc tg =>
      if tg.groupType == "timing" then
        let arc : TimingArc :=
          { relatedPin := (getStr (findAttr tg "related_pin")).getD ""
            when := (getStr (findAttr tg "when")).getD ""
            timingType := (getStr (findAttr tg "timing_type")).getD ""
            timingSense := (getStr (findAttr tg "timing_sense")).getD "" }
        (findTimingGroups tg arc).map (fun a => acc ++ [a])
      else some acc)
    pinGroup.subs arcStorage

/-- processPowerArcs: one PowerArc per `internal_power` subgroup. -/
def processPowerArcs (pinGroup : LibGroup) (arcStorage : List PowerArc) :
    Option (List PowerArc) :=
  optFold
    (fun acc pg =>
      if pg.groupType == "internal_power" then
        let arc : PowerArc :=
          { when := (getStr (findAttr pg "when")).getD ""
            relatedPin := (getStr (findAttr pg "related_pin")).getD ""
            relatedPGpin := (getStr (findAttr pg "related_pg_pin")).getD "" }
        (findPowerGroups pg arc).map (fun a => acc ++ [a])
      else some acc)
    pinGroup.subs arcStorage

/-- Body of the processCellPins loop for one subgroup of the cell: a `pin`
group is dispatched on its `direction` attribute (missing or other
directions are skipped), an output pin reads `function` (missing one stays
empty), an input pin reads the capacitance scalars and ranges (a range only
when its stored value list has exactly two entries); anything else is left
alone. -/
def processOnePin (cellInfo : CellInfo) (pg : LibGroup) : Option CellInfo :=
  if pg.groupType == "pin" then
    let dir := getStr (findAttr pg "direction")
    let pinNameStr := (pg.names.head?).getD ""
    if dir == some "output" then do
      let func := (getStr (findAttr pg "function")).getD ""
      let tarcs ← processTimingArcs pg []
      let parcs ← processPowerArcs pg []
      some { cellInfo with
              outputPins := cellInfo.outputPins ++
                [{ pinName := pinNameStr, function := func,
                   timingArcs := tarcs, powerArcs := parcs }] }
    else if dir == some "input" then do
      let cap :=
        match findAttr pg "capacitance" with
        | some a => some (getFloat a)
        | none => none
      let rcap :=
        match findAttr pg "rise_capacitance" with
        | some a => some (getFloat a)
        | none => none
      let fcap :=
        match findAttr pg "fall_capacitance" with
        | some a => some (getFloat a)
        | none => none
      let rrange ←
        match findAttr pg "rise_capacitance_range" with
        | some a =>
          (parseComplexAttrToFloats a).map
            (fun vs =>
              match vs with
              | [x, y] => ((some x, some y) : Option ℚ × Option ℚ)
              | _ => (none, none))
        | none => some ((none, none) : Option ℚ × Option ℚ)
      let frange ←
        match findAttr pg "fall_capacitance_range" with
        | some a =>
          (parseComplexAttrToFloats a).map
            (fun vs =>
              match vs with
              | [x, y] => ((some x, some y) : Option ℚ × Option ℚ)
              | _ => (none, none))
        | none => some ((none, none) : Option ℚ × Option ℚ)
      let tarcs ← processTimingArcs pg []
      let parcs ← processPowerArcs pg []
      some { cellInfo with
              inputPins := cellInfo.inputPins ++
                [{ pinName := pinNameStr, capacitance := cap,
                   rise_capacitance := rcap, fall_capacitance := fcap,
                   rise_capacitance_range := rrange,
                   fall_capacitance_range := frange,
                   timingArcs := tarcs, powerArcs := parcs }] }
    else some cellInfo
  else some cellInfo

/-- processCellPins: the pin loop over the cell's subgroups. -/
def processCellPins (cellGroup : LibGroup) (cellInfo : CellInfo) :
    Option CellInfo :=
  optFold processOnePin cellGroup.subs cellInfo

/-- parseLeakage: one `leakage_power` group; every missing attribute leaves
the field at its default (value 0, empty strings). -/
def parseLeakage (g : LibGroup) : LeakagePower :=
  { value :=
      match findAttr g "value" with
      | some a => getFloat a
      | none => 0
    when := (getStr (findAttr g "when")).getD ""
    relatedPGpin := (getStr (findAttr g "related_pg_pin")).getD "" }

/-- processLeakage: collect the cell's `leakage_power` subgroups. -/
def processLeakage (cellGroup : LibGroup) (leaks : List LeakagePower) :
    List LeakagePower :=
  cellGroup.subs.foldl
    (fun acc g =>
      if g.groupType == "leakage_power" then acc ++ [parseLeakage g] else acc)
    leaks

/-- getPVT: library-level nominal voltage and temperature; the process list
is never touched here. -/
def getPVT (g : LibGroup) (pvt : PVT) : PVT :=
  let pvt1 :=
    match findAttr g "nom_voltage" with
    | some a => { pvt with voltage := getFloat a }
    | none => pvt
  match findAttr g "nom_temperature" with
  | some a => { pvt1 with temperature := getInt a }
  | none => pvt1

/-- processCells: PVT scalars of the library group, then one CellInfo per
`cell` subgroup (pins first, then leakage, as in the source). -/
def processCells (libraryGroup : LibGroup) (pvt : PVT)
    (cells : List CellInfo) : Option (PVT × List CellInfo) := do
  let pvt1 := getPVT libraryGroup pvt
  let cells1 ←
    optFold
      (fun acc cg =>
        if cg.groupType == "cell" then do
          let ci0 : CellInfo := { cellName := (cg.names.head?).getD "" }
          let ci1 ← processCellPins cg ci0
          let ci2 := { ci1 with leakages := processLeakage cg ci1.leakages }
          some (acc ++ [ci2])
        else some acc)
      libraryGroup.subs cells
  some (pvt1, cells1)

/-- parseLibertyAndGetCells: the extraction entry point.  `readResult` is
the outcome of si2drReadLibertyFile (none: the read failed, in which case
the source returns a default-constructed pair); `process` is the external
process-corner string.  The optional JSON dump only writes a file and does
not affect the returned value, so it is not represented.  The result is
none when a stored numeric token fails std::stod (the exception escapes). -/
def parseLibertyAndGetCells (readResult : Option (List LibGroup))
    (process : String) : Option (PVT × List CellInfo) :=
  let procVal : List Int :=
    if process = "SS" then [1]
    else if process = "TT" then [2]
    else if process = "FF" then [3]
    else []
  match readResult with
  | none => some ({ voltage := 0, temperature := 0, process := [] }, [])
  | some tops =>
    optFold (fun st g => processCells g st.1 st.2)
      tops ({ voltage := 0, temperature := 0, process := procVal }, [])

/-! ## Document model (nlohmann::json) and Document Adapter

The JSON text layer is an external library; we embed documents as values.
An object is a key-to-value finite map (nlohmann keeps object members
keyed; only keyed lookup is observable to this code, so an association list
with unique keys is the model).  `get<double>` on a wrongly-typed value
would throw in the source; the adapter theorems only ever read fields at
their written types, where the embedded accessor agrees with the library. -/

/-- A structured document value. -/
inductive Json where
  | null
  | bool (b : Bool)
  | num (q : ℚ)
  | str (s : String)
  | arr (xs : List Json)
  | obj (fields : List (String × Json))

/-- Keyed lookup in an object member list. -/
def lookupKey (fields : List (String × Json)) (k : String) : Option Json :=
  (fields.find? (fun p => p.1 == k)).map (fun p => p.2)

/-- `j.contains(k)` / `j[k]` for reading: member lookup, none on a
non-object or a missing key. -/
def Json.lookup : Json → String → Option Json
  | .obj fs, k => lookupKey fs k
  | _, _ => none

/-- `get<double>` of a numeric value. -/
def Json.getNum : Json → ℚ
  | .num q => q
  | _ => 0

/-- `get<long>` / `get<int>` of a numeric value. -/
def Json.getInt : Json → Int
  | .num q => ⌊q⌋
  | _ => 0

/-- `j.value(k, "")`: the string member or the default. -/
def jsonValueStr (j : Json) (k : String) (d : String) : String :=
  match j.lookup k with
  | some (.str s) => s
  | _ => d

/-- `j.value(k, 0.0)`: the numeric member or the default. -/
def jsonValueNum (j : Json) (k : String) (d : ℚ) : ℚ :=
  match j.lookup k with
  | some (.num q) => q
  | _ => d

/-- An optional scalar member: present exactly when the model field is. -/
def optNumField (k : String) : Option ℚ → List (String × Json)
  | some c => [(k, Json.num c)]
  | none => []

/-- A capacitance-range member: emitted only when at least one side has a
value, the missing side written as 0.0 (inputPinInfoToJson). -/
def rangeField (k : String) (r : Option ℚ × Option ℚ) : List (String × Json) :=
  if r.1.isSome || r.2.isSome then
    [(k, Json.arr [Json.num (r.1.getD 0), Json.num (r.2.getD 0)])]
  else []

/-- An ordered-list member: omitted when the list is empty. -/
def listField (k : String) (xs : List Json) : List (String × Json) :=
  if xs.isEmpty then [] else [(k, Json.arr xs)]

/-- A string member omitted when the string is empty. -/
def strFieldNonempty (k : String) (s : String) : List (String × Json) :=
  if s.isEmpty then [] else [(k, Json.str s)]

/-- dataLutToJson: index1/index2/values, each omitted when empty. -/
def dataLutToJson (lut : DataLut) : Json :=
  .obj
    ((if lut.index1.isEmpty then [] else
        [("index1", Json.arr (lut.index1.map Json.num))]) ++
     (if lut.index2.isEmpty then [] else
        [("index2", Json.arr (lut.index2.map Json.num))]) ++
     (if lut.values.isEmpty then [] else
        [("values", Json.arr (lut.values.map (fun r => Json.arr (r.map Json.num))))]))

/-- Is a DataLut entirely absent (the emission test of timingArcToJson)? -/
def lutIsEmpty (lut : DataLut) : Bool :=
  lut.index1.isEmpty && lut.index2.isEmpty && lut.values.isEmpty

/-- A LUT member omitted when all three parts are empty. -/
def lutField (k : String) (lut : DataLut) : List (String × Json) :=
  if lutIsEmpty lut then [] else [(k, dataLutToJson lut)]

/-- timingArcToJson. -/
def timingArcToJson (arc : TimingArc) : Json :=
  .obj
    (strFieldNonempty "when" arc.when ++
     strFieldNonempty "related_pin" arc.relatedPin ++
     strFieldNonempty "timing_type" arc.timingType ++
     strFieldNonempty "timing_sense" arc.timingSense ++
     lutField "cell_rise" arc.cellRise ++
     lutField "rise_transition" arc.riseTransition ++
     lutField "cell_fall" arc.cellFall ++
     lutField "fall_transition" arc.fallTransition ++
     lutField "rise_constraint" arc.riseConstrain ++
     lutField "fall_constraint" arc.fallConstrain)

/-- powerArcToJson. -/
def powerArcToJson (arc : PowerArc) : Json :=
  .obj
    (strFieldNonempty "when" arc.when ++
     strFieldNonempty "related_pin" arc.relatedPin ++
     strFieldNonempty "related_pg_pin" arc.relatedPGpin ++
     lutField "cell_rise" arc.cellRise ++
     lutField "cell_fall" arc.cellFall)

/-- leakageToJson: value always written, strings only when non-empty. -/
def leakageToJson (lp : LeakagePower) : Json :=
  .obj
    ([("value", Json.num lp.value)] ++
     strFieldNonempty "when" lp.when ++
     strFieldNonempty "related_pg_pin" lp.relatedPGpin)

/-- inputPinInfoToJson. -/
def inputPinInfoToJson (pin : inputPinInfo) : Json :=
  .obj
    ([("pin_name", Json.str pin.pinName)] ++
     optNumField "capacitance" pin.capacitance ++
     optNumField "rise_capacitance" pin.rise_capacitance ++
     optNumField "fall_capacitance" pin.fall_capacitance ++
     rangeField "rise_capacitance_range" pin.rise_capacitance_range ++
     rangeField "fall_capacitance_range" pin.fall_capacitance_range ++
     listField "timing_arcs" (pin.timingArcs.map timingArcToJson) ++
     listField "power_arcs" (pin.powerArcs.map powerArcToJson))

/-- outputPinInfoToJson. -/
def outputPinInfoToJson (pin : outputPinInfo) : Json :=
  .obj
    ([("pin_name", Json.str pin.pinName)] ++
     strFieldNonempty "function" pin.function ++
     listField "timing_arcs" (pin.timingArcs.map timingArcToJson) ++
     listField "power_arcs" (pin.powerArcs.map powerArcToJson))

/-! ### Reading a patch document back (loadJsonToCells of lib_modify_api.cpp) -/

/-- A member read as a float list when present (`get<vector<double>>` after
a contains check), the empty list otherwise. -/
def jsonToFloats : Option Json → List ℚ
  | some (.arr xs) => xs.map Json.getNum
  | _ => []

/-- A member read as a float matrix when present. -/
def jsonToRows : Option Json → List (List ℚ)
  | some (.arr xs) =>
    xs.map (fun r =>
      match r with
      | .arr ys => ys.map Json.getNum
      | _ => [])
  | _ => []

/-- One LUT object of the patch document: index1/index2/values, each only
when its key is present. -/
def parseDataLutJson (j : Json) : DataLut :=
  { index1 := jsonToFloats (j.lookup "index1")
    index2 := jsonToFloats (j.lookup "index2")
    values := jsonToRows (j.lookup "values") }

/-- One LUT slot of a patch arc: the slot is filled only when its key is
present, otherwise it stays the default-constructed (empty) DataLut. -/
def lutSlotOfJson (aj : Json) (k : String) : DataLut :=
  match aj.lookup k with
  | some l => parseDataLutJson l
  | none => {}

/-- One timing arc of the patch document. -/
def parseTimingArcJson (aj : Json) : TimingArc :=
  { when := jsonValueStr aj "when" ""
    relatedPin := jsonValueStr aj "related_pin" ""
    timingType := jsonValueStr aj "timing_type" ""
    timingSense := jsonValueStr aj "timing_sense" ""
    cellRise := lutSlotOfJson aj "cell_rise"
    riseTransition := lutSlotOfJson aj "rise_transition"
    cellFall := lutSlotOfJson aj "cell_fall"
    fallTransition := lutSlotOfJson aj "fall_transition"
    riseConstrain := lutSlotOfJson aj "rise_constraint"
    fallConstrain := lutSlotOfJson aj "fall_constraint" }

/-- One power arc of the patch document. -/
def parsePowerArcJson (aj : Json) : PowerArc :=
  { when := jsonValueStr aj "when" ""
    relatedPin := jsonValueStr aj "related_pin" ""
    relatedPGpin := jsonValueStr aj "related_pg_pin" ""
    cellRise := lutSlotOfJson aj "cell_rise"
    cellFall := lutSlotOfJson aj "cell_fall" }

/-- A member list read as arcs when present. -/
def arcsOfJson {α : Type} (f : Json → α) : Option Json → List α
  | some (.arr xs) => xs.map f
  | _ => []

/-- One input pin of the patch document: every scalar capacitance only when
present; a capacitance range only when present as an array of exactly two
entries, both sides then read (a missing side in the document is therefore
impossible; a side the writer defaulted to 0.0 reads back as 0.0, not as
absent). -/
def parseInputPinJson (pj : Json) : inputPinInfo :=
  { pinName := jsonValueStr pj "pin_name" ""
    capacitance := (pj.lookup "capacitance").map Json.getNum
    rise_capacitance := (pj.lookup "rise_capacitance").map Json.getNum
    fall_capacitance := (pj.lookup "fall_capacitance").map Json.getNum
    rise_capacitance_range :=
      match pj.lookup "rise_capacitance_range" with
      | some (.arr [x, y]) => (some x.getNum, some y.getNum)
      | _ => (none, none)
    fall_capacitance_range :=
      match pj.lookup "fall_capacitance_range" with
      | some (.arr [x, y]) => (some x.getNum, some y.getNum)
      | _ => (none, none)
    timingArcs := arcsOfJson parseTimingArcJson (pj.lookup "timing_arcs")
    powerArcs := arcsOfJson parsePowerArcJson (pj.lookup "power_arcs") }

/-- One output pin of the patch document. -/
def parseOutputPinJson (pj : Json) : outputPinInfo :=
  { pinName := jsonValueStr pj "pin_name" ""
    function := jsonValueStr pj "function" ""
    timingArcs := arcsOfJson parseTimingArcJson (pj.lookup "timing_arcs")
    powerArcs := arcsOfJson parsePowerArcJson (pj.lookup "power_arcs") }

/-- One cell of the patch document. -/
def parseCellJson (cj : Json) : CellInfo :=
  { cellName := jsonValueStr cj "cell_name" ""
    outputPins := arcsOfJson parseOutputPinJson (cj.lookup "output_pins")
    inputPins := arcsOfJson parseInputPinJson (cj.lookup "input_pins")
    leakages :=
      arcsOfJson
        (fun lk =>
          ({ value := jsonValueNum lk "value" 0
             when := jsonValueStr lk "when" ""
             relatedPGpin := jsonValueStr lk "related_pg_pin" "" } : LeakagePower))
        (cj.lookup "leakage_power") }

/-- loadJsonToCells on a successfully opened and parsed document (opening
or parsing failure is the `none` case of the caller's input): the PVT
fields each only when present, then the cells. -/
def loadJsonToCells (j : Json) : PVT × List CellInfo :=
  ({ voltage :=
       match j.lookup "voltage" with
       | some v => v.getNum
       | none => 0
     temperature :=
       match j.lookup "temperature" with
       | some v => v.getInt
       | none => 0
     process :=
       match j.lookup "process" with
       | some (.arr xs) => xs.map Json.getInt
       | _ => [] },
   arcsOfJson parseCellJson (j.lookup "cells"))

/-! ## Patcher (lib_modify_api.cpp) -/

/-- timingArcEquals: the matching key is (when, relatedPin, timingType);
timingSense takes no part. -/
def timingArcEquals (a b : TimingArc) : Bool :=
  a.when == b.when && a.relatedPin == b.relatedPin && a.timingType == b.timingType

/-- powerArcEquals: the matching key is (when, relatedPin, relatedPGpin). -/
def powerArcEquals (a b : PowerArc) : Bool :=
  a.when == b.when && a.relatedPin == b.relatedPin && a.relatedPGpin == b.relatedPGpin

/-- leakageEquals: the matching key is (when, relatedPGpin). -/
def leakageEquals (a b : LeakagePower) : Bool :=
  a.when == b.when && a.relatedPGpin == b.relatedPGpin

/-- The environment deciding whether a given delete or create of a complex
attribute succeeds (the si2dr error the source logs and absorbs), as a
function of the attribute name and the group's current attribute list. -/
structure SoftOracle where
  delOk : String → List LibAttr → Bool
  createOk : String → List LibAttr → Bool

/-- The environment in which no delete or create ever fails. -/
def noFail : SoftOracle := ⟨fun _ _ => true, fun _ _ => true⟩

/-- recreateComplexAttr: find the attribute; delete it when present (a
failed delete leaves the list unchanged and reports failure); then create
it afresh (a failed create reports failure; the old attribute, if any, is
already gone).  The Bool is whether the caller got a non-null attribute to
write into; the fresh attribute itself is appended by the caller together
with its values (the source adds the values one by one into the fresh
empty attribute, which amounts to appending the finished attribute). -/
def recreateComplexAttr (o : SoftOracle) (attrs : List LibAttr) (n : String) :
    List LibAttr × Bool :=
  match findAttrL attrs n with
  | some _ =>
    if o.delOk n attrs then
      let base := eraseFirstAttr attrs n
      if o.createOk n base then (base, true) else (base, false)
    else (attrs, false)
  | none => if o.createOk n attrs then (attrs, true) else (attrs, false)

/-- Delete-recreate-write of one complex attribute: on success the finished
attribute (name and value list) sits at the end of the list; on failure the
slot is skipped. -/
def recreateAndWrite (o : SoftOracle) (attrs : List LibAttr) (n : String)
    (vs : List AttrVal) : List LibAttr :=
  let r := recreateComplexAttr o attrs n
  if r.2 then r.1 ++ [.complex n vs] else r.1

/-- Body of the addArcLut loop for one subgroup of the matching type:
index_1 is always rewritten (an empty lut writes the one empty joined
string; on failure the `continue` skips the rest of this subgroup),
index_2 only when the lut's index2 is non-empty, values always (one string
per row, so an empty lut leaves the fresh attribute without values). -/
def addArcLutGroup (o : SoftOracle) (lut : DataLut) (g : LibGroup) : LibGroup :=
  let r1 := recreateComplexAttr o g.attrs "index_1"
  if r1.2 then
    let a1 := r1.1 ++ [.complex "index_1" [.str (encodeRow lut.index1)]]
    let a2 :=
      if lut.index2.isEmpty then a1
      else recreateAndWrite o a1 "index_2" [.str (encodeRow lut.index2)]
    let a3 :=
      recreateAndWrite o a2 "values"
        (lut.values.map (fun r => AttrVal.str (encodeRow r)))
    g.setAttrs a3
  else g.setAttrs r1.1

/-- addArcLut: rewrite the LUT attributes of every subgroup whose type tag
matches the requested one. -/
def addArcLut (o : SoftOracle) (parentGroup : LibGroup) (lutGroupType : String)
    (lut : DataLut) : LibGroup :=
  parentGroup.setSubs
    (parentGroup.subs.map
      (fun sub =>
        if sub.groupType == lutGroupType then addArcLutGroup o lut sub else sub))

/-- addCapacitanceRangeValues: the float values appended into a recreated
range attribute - each side only when present. -/
def addCapacitanceRangeValues (range : Option ℚ × Option ℚ) : List AttrVal :=
  (match range.1 with
   | some v => [AttrVal.flt v]
   | none => []) ++
  (match range.2 with
   | some v => [AttrVal.flt v]
   | none => [])

/-- addTimingArcValues: the six LUT slots of a matched timing group, each
rewritten unconditionally from the patch arc. -/
def addTimingArcValues (o : SoftOracle) (arc : TimingArc) (g : LibGroup) :
    LibGroup :=
  addArcLut o
    (addArcLut o
      (addArcLut o
        (addArcLut o
          (addArcLut o
            (addArcLut o g "cell_rise" arc.cellRise)
            "rise_transition" arc.riseTransition)
          "cell_fall" arc.cellFall)
        "fall_transition" arc.fallTransition)
      "rise_constraint" arc.riseConstrain)
    "fall_constraint" arc.fallConstrain

/-- One step of the addArcLut subgroup loop, as a function of a single
subgroup: transform it exactly when its type tag matches (the body of the
map inside addArcLut, named for element-wise reasoning). -/
def applySlot (o : SoftOracle) (t : String) (lut : DataLut) (g : LibGroup) :
    LibGroup :=
  if g.groupType == t then addArcLutGroup o lut g else g

/-- The patch arc's Lut that addTimingArcValues passes for a given slot
type tag (the slot-to-field association of lib_modify_api.cpp:143-150). -/
def arcLutOfSlot (arc : TimingArc) : String → DataLut
  | "cell_rise" => arc.cellRise
  | "rise_transition" => arc.riseTransition
  | "cell_fall" => arc.cellFall
  | "fall_transition" => arc.fallTransition
  | "rise_constraint" => arc.riseConstrain
  | "fall_constraint" => arc.fallConstrain
  | _ => {}

/-- addPowerArcValues: the two LUT slots of a matched internal_power
group. -/
def addPowerArcValues (o : SoftOracle) (arc : PowerArc) (g : LibGroup) :
    LibGroup :=
  addArcLut o (addArcLut o g "rise_power" arc.cellRise) "fall_power" arc.cellFall

/-- One scalar-capacitance block of updateInputCapacitance: write the value
only when the patch has it (and, through setSimpleFloatAttrs, only onto an
already existing attribute). -/
def capStage (v : Option ℚ) (n : String) (attrs : List LibAttr) :
    List LibAttr :=
  match v with
  | some x => setSimpleFloatAttrs attrs n x
  | none => attrs

/-- One capacitance-range block of updateInputCapacitance: delete-recreate
the range attribute only when at least one side is present. -/
def rangeStage (o : SoftOracle) (r : Option ℚ × Option ℚ) (n : String)
    (attrs : List LibAttr) : List LibAttr :=
  if r.1.isSome || r.2.isSome then
    recreateAndWrite o attrs n (addCapacitanceRangeValues r)
  else attrs

/-- updateInputCapacitance: the five blocks of the source in order -
capacitance, rise_capacitance, fall_capacitance, rise_capacitance_range,
fall_capacitance_range. -/
def updateInputCapacitance (o : SoftOracle) (jsonPin : inputPinInfo)
    (pinGroup : LibGroup) : LibGroup :=
  pinGroup.setAttrs
    (rangeStage o jsonPin.fall_capacitance_range "fall_capacitance_range"
      (rangeStage o jsonPin.rise_capacitance_range "rise_capacitance_range"
        (capStage jsonPin.fall_capacitance "fall_capacitance"
          (capStage jsonPin.rise_capacitance "rise_capacitance"
            (capStage jsonPin.capacitance "capacitance" pinGroup.attrs)))))

/-- The linear scan of updateTimingArcs over the patch arcs: the first one
whose key equals the key read from the tree. -/
def selectTimingArc (existingArc : TimingArc) (jsonArcs : List TimingArc) :
    Option TimingArc :=
  jsonArcs.find? (fun arc => timingArcEquals existingArc arc)

/-- updateTimingArcs: for every `timing` subgroup of the pin, read its key
(missing attributes read as empty strings), find the first matching patch
arc, and apply its LUTs when found. -/
def updateTimingArcs (o : SoftOracle) (jsonArcs : List TimingArc)
    (pinGroup : LibGroup) : LibGroup :=
  pinGroup.setSubs
    (pinGroup.subs.map
      (fun tg =>
        if tg.groupType == "timing" then
          let existingArc : TimingArc :=
            { relatedPin := (getStr (findAttr tg "related_pin")).getD ""
              when := (getStr (findAttr tg "when")).getD ""
              timingType := (getStr (findAttr tg "timing_type")).getD "" }
          match selectTimingArc existingArc jsonArcs with
          | some arc => addTimingArcValues o arc tg
          | none => tg
        else tg))

/-- The linear scan of updatePowerArcs over the patch power arcs. -/
def selectPowerArc (existingArc : PowerArc) (jsonArcs : List PowerArc) :
    Option PowerArc :=
  jsonArcs.find? (fun arc => powerArcEquals existingArc arc)

/-- updatePowerArcs: the power analogue of updateTimingArcs. -/
def updatePowerArcs (o : SoftOracle) (jsonArcs : List PowerArc)
    (pinGroup : LibGroup) : LibGroup :=
  pinGroup.setSubs
    (pinGroup.subs.map
      (fun pg =>
        if pg.groupType == "internal_power" then
          let existingArc : PowerArc :=
            { relatedPin := (getStr (findAttr pg "related_pin")).getD ""
              when := (getStr (findAttr pg "when")).getD ""
              relatedPGpin := (getStr (findAttr pg "related_pg_pin")).getD "" }
          match selectPowerArc existingArc jsonArcs with
          | some arc => addPowerArcValues o arc pg
          | none => pg
        else pg))

/-- updateLeakagePower: value is always written (created when missing);
when and related_pg_pin only when the patch string is non-empty. -/
def updateLeakagePower (info : LeakagePower) (g : LibGroup) : LibGroup :=
  let a1 := setOrCreateSimpleFloat g.attrs "value" info.value
  let a2 :=
    if info.when.isEmpty then a1 else setOrCreateSimpleStr a1 "when" info.when
  let a3 :=
    if info.relatedPGpin.isEmpty then a2
    else setOrCreateSimpleStr a2 "related_pg_pin" info.relatedPGpin
  g.setAttrs a3

/-- updateLeakages: for every `leakage_power` subgroup of the cell, read its
key from the tree, find the first matching patch entry, update if found. -/
def updateLeakages (jsonLeakages : List LeakagePower) (cellGroup : LibGroup) :
    LibGroup :=
  cellGroup.setSubs
    (cellGroup.subs.map
      (fun g =>
        if g.groupType == "leakage_power" then
          let existing : LeakagePower :=
            { value :=
                match findAttr g "value" with
                | some a => getFloat a
                | none => 0
              when := (getStr (findAttr g "when")).getD ""
              relatedPGpin := (getStr (findAttr g "related_pg_pin")).getD "" }
          match jsonLeakages.find? (fun lp => leakageEquals lp existing) with
          | some lp => updateLeakagePower lp g
          | none => g
        else g))

/-- Body of the pin loop of updateLibertyFile for one subgroup of a matched
cell. -/
def updateOnePin (o : SoftOracle) (jsonCell : CellInfo) (pg : LibGroup) :
    LibGroup :=
  if pg.groupType == "pin" then
    let dir := getStr (findAttr pg "direction")
    match pg.names.head? with
    | none => pg
    | some pName =>
      if dir == some "input" then
        match jsonCell.inputPins.find? (fun pin => pin.pinName == pName) with
        | some jp =>
          updatePowerArcs o jp.powerArcs
            (updateTimingArcs o jp.timingArcs (updateInputCapacitance o jp pg))
        | none => pg
      else if dir == some "output" then
        match jsonCell.outputPins.find? (fun pin => pin.pinName == pName) with
        | some jp => updatePowerArcs o jp.powerArcs (updateTimingArcs o jp.timingArcs pg)
        | none => pg
      else pg
  else pg

/-- updateLibertyFile: for every `cell` subgroup of the library group whose
first declared name matches a patch cell, update its leakages and then its
pins; everything else - including every library-level attribute - is left
as it is.  (The pvt parameter is passed through from the source signature
and, as there, never used.) -/
def updateLibertyFile (o : SoftOracle) (cells : List CellInfo) (pvt : PVT)
    (libraryGroup : LibGroup) : LibGroup :=
  libraryGroup.setSubs
    (libraryGroup.subs.map
      (fun cg =>
        if cg.groupType == "cell" then
          match cg.names.head? with
          | none => cg
          | some cName =>
            match cells.find? (fun c => c.cellName == cName) with
            | none => cg
            | some jsonCell =>
              let cg1 := updateLeakages jsonCell.leakages cg
              cg1.setSubs (cg1.subs.map (updateOnePin o jsonCell))
        else cg))

/-- modifyLibertyFile: parse the patch document (none: the file could not
be opened or parsed - the source returns false), read the original tree
(none: si2drReadLibertyFile failed - false), update every top-level group,
then write the first top-level group (writeOk is the outcome of
si2drWriteLibertyFile, an external file-system matter; with no top-level
group nothing is written and the operation succeeds).  Library shutdown
calls (iterator release, si2drPIQuit) release resources and do not carry a
status of their own. -/
def modifyLibertyFile (doc : Option Json) (trees : Option (List LibGroup))
    (writeOk : Bool) (o : SoftOracle) : Bool :=
  match doc with
  | none => false
  | some j =>
    let pc := loadJsonToCells j
    match trees with
    | none => false
    | some tops =>
      match tops.map (updateLibertyFile o pc.2 pc.1) with
      | [] => true
      | _ :: _ => writeOk

/-! ## Lemmas -/

/-- find? returns the i-th element when it satisfies the predicate and no
earlier element does. -/
theorem find_first_eq {α : Type} (p : α → Bool) (l : List α) (i : ℕ)
    (h : i < l.length) (hi : p (l.get ⟨i, h⟩) = true)
    (hfirst : ∀ j (hj : j < i), p (l.get ⟨j, Nat.lt_trans hj h⟩) = false) :
    l.find? p = some (l.get ⟨i, h⟩) := by
  induction l generalizing i with
  | nil => exact absurd h (Nat.not_lt_zero i)
  | cons a as ih =>
    cases i with
    | zero => exact List.find?_cons_of_pos _ hi
    | succ n =>
      have ha : p a = false := hfirst 0 (Nat.succ_pos n)
      rw [List.find?_cons_of_neg _ (by simp [ha])]
      exact ih n (Nat.lt_of_succ_lt_succ h) hi
        (fun j hj => hfirst (j + 1) (Nat.succ_lt_succ hj))

/-- getPVT never writes the process list. -/
theorem getPVT_process (g : LibGroup) (pvt : PVT) :
    (getPVT g pvt).process = pvt.process := by
  unfold getPVT
  cases findAttr g "nom_voltage" <;> cases findAttr g "nom_temperature" <;> rfl

/-- processCells never writes the process list. -/
theorem processCells_process (g : LibGroup) (pvt : PVT) (cells : List CellInfo)
    (r : PVT × List CellInfo) (h : processCells g pvt cells = some r) :
    r.1.process = pvt.process := by
  unfold processCells at h
  cases hf : optFold
      (fun acc cg =>
        if cg.groupType == "cell" then do
          let ci0 : CellInfo := { cellName := (cg.names.head?).getD "" }
          let ci1 ← processCellPins cg ci0
          let ci2 := { ci1 with leakages := processLeakage cg ci1.leakages }
          some (acc ++ [ci2])
        else some acc)
      g.subs cells with
  | none => rw [hf] at h; exact absurd h (by simp)
  | some cells1 =>
    rw [hf] at h
    have h2 : some (getPVT g pvt, cells1) = some r := h
    obtain rfl : (getPVT g pvt, cells1) = r := Option.some.inj h2
    exact getPVT_process g pvt

/-- The per-library fold of parseLibertyAndGetCells never writes the
process list. -/
theorem foldCells_process (tops : List LibGroup) (st : PVT × List CellInfo)
    (r : PVT × List CellInfo)
    (h : optFold (fun st g => processCells g st.1 st.2) tops st = some r) :
    r.1.process = st.1.process := by
  induction tops generalizing st with
  | nil =>
    simp only [optFold, Option.some.injEq] at h
    rw [← h]
  | cons g gs ih =>
    simp only [optFold] at h
    cases hg : processCells g st.1 st.2 with
    | none => rw [hg] at h; exact absurd h (by simp)
    | some st2 =>
      rw [hg] at h
      exact (ih st2 h).trans (processCells_process g st.1 st.2 st2 hg)

/-! ## Claim theorems -/

/-- Claim C9: the patching traversal writes only inside cell groups - the
library group's own type tag, names and attribute list (nominal voltage and
temperature among the attributes) are returned exactly as given, for every
patch content and every soft-error environment. -/
theorem C9_library_level_preserved (o : SoftOracle) (cells : List CellInfo)
    (pvt : PVT) (lib : LibGroup) :
    (updateLibertyFile o cells pvt lib).groupType = lib.groupType ∧
    (updateLibertyFile o cells pvt lib).names = lib.names ∧
    (updateLibertyFile o cells pvt lib).attrs = lib.attrs := by
  cases lib
  exact ⟨rfl, rfl, rfl⟩

/-- Claim C10: when the Liberty file cannot be read,
parseLibertyAndGetCells returns the default-constructed result - voltage 0,
temperature 0, empty process list (the recognized corner argument is
discarded) and no cells - through the ordinary return channel. -/
theorem C10_read_failure_default (process : String) :
    parseLibertyAndGetCells none process =
      some ({ voltage := 0, temperature := 0, process := [] }, []) := rfl

/-- Claim C5: modifyLibertyFile reports false exactly when the patch
document cannot be opened or parsed, the original tree cannot be read, or
the write of the (existing) first top-level group fails; the soft-error
environment - which decides every complex-attribute delete/create failure -
never changes the reported outcome. -/
theorem C5_fatal_failures (doc : Option Json) (trees : Option (List LibGroup))
    (writeOk : Bool) (o o2 : SoftOracle) :
    modifyLibertyFile doc trees writeOk o = modifyLibertyFile doc trees writeOk o2 ∧
    (modifyLibertyFile doc trees writeOk o = false ↔
      doc = none ∨ trees = none ∨
        ∃ g gs, trees = some (g :: gs) ∧ writeOk = false) := by
  constructor
  · cases doc with
    | none => rfl
    | some j =>
      cases trees with
      | none => rfl
      | some tops => cases tops <;> rfl
  · cases doc with
    | none => simp [modifyLibertyFile]
    | some j =>
      cases trees with
      | none => simp [modifyLibertyFile]
      | some tops =>
        cases tops with
        | nil => simp [modifyLibertyFile]
        | cons g gs =>
          cases writeOk with
          | false =>
            exact ⟨fun _ => Or.inr (Or.inr ⟨g, gs, rfl, rfl⟩), fun _ => rfl⟩
          | true => simp [modifyLibertyFile]

/-- Claim C2: the Patcher's timing-arc match holds exactly when the when,
related_pin and timing_type strings agree; timing_sense never enters the
comparison; and the linear scan over the patch arcs picks the first
key-equal entry. -/
theorem C2_timing_arc_matching (a b : TimingArc) (s : String)
    (arcs : List TimingArc) (i : ℕ) (h : i < arcs.length) :
    (timingArcEquals a b = true ↔
      (a.when = b.when ∧ a.relatedPin = b.relatedPin ∧ a.timingType = b.timingType)) ∧
    timingArcEquals a { b with timingSense := s } = timingArcEquals a b ∧
    (timingArcEquals a (arcs.get ⟨i, h⟩) = true →
      (∀ j (hj : j < i), timingArcEquals a (arcs.get ⟨j, Nat.lt_trans hj h⟩) = false) →
      selectTimingArc a arcs = some (arcs.get ⟨i, h⟩)) := by
  refine ⟨?_, rfl, ?_⟩
  · simp [timingArcEquals, Bool.and_eq_true, beq_iff_eq, and_assoc]
  · intro hi hfirst
    exact find_first_eq (fun arc => timingArcEquals a arc) arcs i h hi hfirst

/-- Witness for C2: a key with a non-matching first patch arc and a
matching second one whose timing_sense differs from the probe's - the
second arc is selected. -/
theorem C2_timing_arc_matching_witness :
    selectTimingArc
        { when := "A&B", relatedPin := "A", timingType := "combinational",
          timingSense := "positive_unate" }
        [{ when := "", relatedPin := "A", timingType := "combinational",
           timingSense := "positive_unate" },
         { when := "A&B", relatedPin := "A", timingType := "combinational",
           timingSense := "negative_unate" }] =
      some
        { when := "A&B", relatedPin := "A", timingType := "combinational",
          timingSense := "negative_unate" } := by
  have h :=
    (C2_timing_arc_matching
        { when := "A&B", relatedPin := "A", timingType := "combinational",
          timingSense := "positive_unate" }
        {} ""
        [{ when := "", relatedPin := "A", timingType := "combinational",
           timingSense := "positive_unate" },
         { when := "A&B", relatedPin := "A", timingType := "combinational",
           timingSense := "negative_unate" }]
        1 (by decide)).2.2
  exact h (by decide)
    (fun j hj => by
      have hj0 : j = 0 := Nat.lt_one_iff.mp hj
      subst hj0
      exact (by decide :
        timingArcEquals
            { when := "A&B", relatedPin := "A", timingType := "combinational",
              timingSense := "positive_unate" }
            { when := "", relatedPin := "A", timingType := "combinational",
              timingSense := "positive_unate" } = false))

/-- Claim C8: on a successful read, the process field of the returned PVT
is a pure function of the corner argument - a fixed one-element list for a
recognized corner, the empty list otherwise - whatever the tree holds. -/
theorem C8_process_from_argument (tops : List LibGroup) (process : String)
    (r : PVT × List CellInfo)
    (h : parseLibertyAndGetCells (some tops) process = some r) :
    (process = "SS" → r.1.process = [1]) ∧
    (process = "TT" → r.1.process = [2]) ∧
    (process = "FF" → r.1.process = [3]) ∧
    (process ≠ "SS" → process ≠ "TT" → process ≠ "FF" → r.1.process = []) := by
  unfold parseLibertyAndGetCells at h
  have hp := foldCells_process tops _ r h
  refine ⟨?_, ?_, ?_, ?_⟩
  · intro hs; rw [hp, if_pos hs]
  · intro hs
    by_cases hss : process = "SS"
    · rw [hss] at hs; exact absurd hs (by decide)
    · rw [hp, if_neg hss, if_pos hs]
  · intro hs
    by_cases hss : process = "SS"
    · rw [hss] at hs; exact absurd hs (by decide)
    · by_cases htt : process = "TT"
      · rw [htt] at hs; exact absurd hs (by decide)
      · rw [hp, if_neg hss, if_neg htt, if_pos hs]
  · intro h1 h2 h3
    rw [hp, if_neg h1, if_neg h2, if_neg h3]

/-- Witness for C8: an empty library tree parsed with corner "SS" yields
process [1] - the tree contributed nothing. -/
theorem C8_process_from_argument_witness :
    parseLibertyAndGetCells (some [LibGroup.mk "library" [] [] []]) "SS" =
      some ({ voltage := 0, temperature := 0, process := [1] }, []) ∧
    ({ voltage := 0, temperature := 0, process := [1] } : PVT).process = [1] :=
  ⟨by decide,
   (C8_process_from_argument [LibGroup.mk "library" [] [] []] "SS"
       ({ voltage := 0, temperature := 0, process := [1] }, [])
       (by decide)).1 rfl⟩

/-! ### Frame lemmas for attribute-list edits -/

/-- Setting a simple float under one name does not disturb lookups of
another name. -/
theorem findAttrL_setSimpleFloat_ne (attrs : List LibAttr) (n m : String)
    (q : ℚ) (hnm : m ≠ n) :
    findAttrL (setSimpleFloatAttrs attrs n q) m = findAttrL attrs m := by
  induction attrs with
  | nil => rfl
  | cons a rest ih =>
    by_cases ha : attrName a == n
    · have hnamea : attrName a = n := by simpa using ha
      cases a with
      | simple na v =>
        simp only [setSimpleFloatAttrs, ha, if_pos]
        simp only [findAttrL, List.find?_cons]
        have h1 : (attrName (.simple n (.flt q)) == m) = false := by
          simp [attrName, (by simpa [attrName] using hnm.symm : ¬n = m)]
        have h2 : (attrName (.simple na v) == m) = false := by
          simp [attrName] at hnamea ⊢
          rw [hnamea]
          exact fun hc => hnm hc.symm
        rw [h1, h2]
      | complex na vs =>
        simp only [setSimpleFloatAttrs, ha, if_pos]
    · simp only [setSimpleFloatAttrs, Bool.not_eq_true] at ha
      simp only [setSimpleFloatAttrs, ha, if_neg, Bool.false_eq_true,
        not_false_iff]
      simp only [findAttrL, List.find?_cons] at ih ⊢
      cases hb : (attrName a == m) with
      | true => rfl
      | false => exact ih

/-- Erasing the first attribute of one name does not disturb lookups of
another name. -/
theorem findAttrL_eraseFirst_ne (attrs : List LibAttr) (n m : String)
    (hnm : m ≠ n) :
    findAttrL (eraseFirstAttr attrs n) m = findAttrL attrs m := by
  induction attrs with
  | nil => rfl
  | cons a rest ih =>
    by_cases ha : attrName a == n
    · simp only [eraseFirstAttr, ha, if_pos]
      have hnamea : attrName a = n := by simpa using ha
      simp only [findAttrL, List.find?_cons]
      have h2 : (attrName a == m) = false := by
        simp [hnamea]
        exact fun hc => hnm hc.symm
      rw [h2]
    · simp only [eraseFirstAttr, Bool.not_eq_true] at ha
      simp only [eraseFirstAttr, ha, if_neg, Bool.false_eq_true, not_false_iff]
      simp only [findAttrL, List.find?_cons] at ih ⊢
      cases hb : (attrName a == m) with
      | true => rfl
      | false => exact ih

/-- A found lookup is unchanged by appending. -/
theorem findAttrL_append_of_some (attrs rest2 : List LibAttr) (m : String)
    (a : LibAttr) (h : findAttrL attrs m = some a) :
    findAttrL (attrs ++ rest2) m = some a := by
  simp only [findAttrL] at h ⊢
  rw [List.find?_append, h]
  rfl

/-- A missing lookup after appending looks only at the appended part. -/
theorem findAttrL_append_of_none (attrs rest2 : List LibAttr) (m : String)
    (h : findAttrL attrs m = none) :
    findAttrL (attrs ++ rest2) m = findAttrL rest2 m := by
  simp only [findAttrL] at h ⊢
  rw [List.find?_append, h]
  rfl

/-- Appending a single complex attribute of another name does not disturb
lookups. -/
theorem findAttrL_append_complex_ne (attrs : List LibAttr) (n m : String)
    (vs : List AttrVal) (hnm : m ≠ n) :
    findAttrL (attrs ++ [.complex n vs]) m = findAttrL attrs m := by
  cases h : findAttrL attrs m with
  | some a => exact findAttrL_append_of_some attrs _ m a h
  | none =>
    rw [findAttrL_append_of_none attrs _ m h]
    have hb : (n == m) = false :=
      beq_eq_false_iff_ne.mpr (fun hc => hnm hc.symm)
    simp [findAttrL, List.find?, attrName, hb]

/-- recreateComplexAttr leaves lookups of other names alone (whatever the
soft-error environment decided). -/
theorem findAttrL_recreate_ne (o : SoftOracle) (attrs : List LibAttr)
    (n m : String) (hnm : m ≠ n) :
    findAttrL (recreateComplexAttr o attrs n).1 m = findAttrL attrs m := by
  unfold recreateComplexAttr
  cases hf : findAttrL attrs n with
  | some a =>
    by_cases hd : o.delOk n attrs
    · by_cases hc : o.createOk n (eraseFirstAttr attrs n) <;>
        simp [hd, hc, findAttrL_eraseFirst_ne attrs n m hnm]
    · simp [hd]
  | none =>
    by_cases hc : o.createOk n attrs <;> simp [hc]

/-- recreateAndWrite leaves lookups of other names alone. -/
theorem findAttrL_recreateAndWrite_ne (o : SoftOracle) (attrs : List LibAttr)
    (n m : String) (vs : List AttrVal) (hnm : m ≠ n) :
    findAttrL (recreateAndWrite o attrs n vs) m = findAttrL attrs m := by
  unfold recreateAndWrite
  by_cases h2 : (recreateComplexAttr o attrs n).2
  · simp only [h2, if_pos]
    rw [findAttrL_append_complex_ne _ n m vs hnm]
    exact findAttrL_recreate_ne o attrs n m hnm
  · simp only [h2, Bool.false_eq_true, if_neg, not_false_iff]
    exact findAttrL_recreate_ne o attrs n m hnm

/-- A capacitance block for one name never disturbs lookups of another. -/
theorem findAttrL_capStage_ne (v : Option ℚ) (n m : String)
    (attrs : List LibAttr) (hnm : m ≠ n) :
    findAttrL (capStage v n attrs) m = findAttrL attrs m := by
  cases v with
  | none => rfl
  | some x => exact findAttrL_setSimpleFloat_ne attrs n m x hnm

/-- A range block for one name never disturbs lookups of another. -/
theorem findAttrL_rangeStage_ne (o : SoftOracle) (r : Option ℚ × Option ℚ)
    (n m : String) (attrs : List LibAttr) (hnm : m ≠ n) :
    findAttrL (rangeStage o r n attrs) m = findAttrL attrs m := by
  unfold rangeStage
  by_cases hc : r.1.isSome || r.2.isSome
  · simp only [hc, if_pos]
    exact findAttrL_recreateAndWrite_ne o attrs n _ _ hnm
  · simp only [hc, Bool.false_eq_true, if_neg, not_false_iff]

/-- Setting a simple float attribute that the lookup finds replaces exactly
its value. -/
theorem findAttrL_setSimpleFloat_self (attrs : List LibAttr) (n nm : String)
    (w : AttrVal) (q : ℚ) (h : findAttrL attrs n = some (.simple nm w)) :
    findAttrL (setSimpleFloatAttrs attrs n q) n = some (.simple n (.flt q)) := by
  induction attrs with
  | nil => exact absurd h (by simp [findAttrL, List.find?])
  | cons a rest ih =>
    by_cases ha : attrName a == n
    · have hfind : findAttrL (a :: rest) n = some a := by
        simp [findAttrL, List.find?, ha]
      rw [hfind] at h
      obtain rfl : a = LibAttr.simple nm w := Option.some.inj h
      have hnmn : nm = n := by simpa [attrName] using ha
      subst hnmn
      simp [setSimpleFloatAttrs, ha, findAttrL, List.find?, attrName]
    · have hb : (attrName a == n) = false := by simpa using ha
      have h2 : findAttrL rest n = some (.simple nm w) := by
        simpa [findAttrL, List.find?, hb] using h
      simp only [setSimpleFloatAttrs, hb, Bool.false_eq_true, if_neg,
        not_false_iff]
      simpa [findAttrL, List.find?, hb] using ih h2

/-- Lookup through setAttrs. -/
theorem findAttr_setAttrs (g : LibGroup) (attrs : List LibAttr) (m : String) :
    findAttr (g.setAttrs attrs) m = findAttrL attrs m := by
  cases g
  rfl

/-- Claim C4: per matched input pin, each scalar capacitance attribute is
overwritten only when that field is present in the patch - an absent field
leaves the attribute exactly as it was (in particular a capacitance-only
patch leaves rise_capacitance untouched), and a present field rewrites the
found attribute's value. -/
theorem C4_selective_capacitance (o : SoftOracle) (jp : inputPinInfo)
    (pg : LibGroup) :
    (jp.capacitance = none →
      findAttr (updateInputCapacitance o jp pg) "capacitance" =
        findAttr pg "capacitance") ∧
    (jp.rise_capacitance = none →
      findAttr (updateInputCapacitance o jp pg) "rise_capacitance" =
        findAttr pg "rise_capacitance") ∧
    (jp.fall_capacitance = none →
      findAttr (updateInputCapacitance o jp pg) "fall_capacitance" =
        findAttr pg "fall_capacitance") ∧
    (∀ v nm w, jp.capacitance = some v →
      findAttr pg "capacitance" = some (.simple nm w) →
      findAttr (updateInputCapacitance o jp pg) "capacitance" =
        some (.simple "capacitance" (.flt v))) := by
  unfold updateInputCapacitance
  simp only [findAttr_setAttrs]
  refine ⟨?_, ?_, ?_, ?_⟩
  · intro hc
    rw [findAttrL_rangeStage_ne o _ _ _ _ (by decide),
      findAttrL_rangeStage_ne o _ _ _ _ (by decide),
      findAttrL_capStage_ne _ _ _ _ (by decide),
      findAttrL_capStage_ne _ _ _ _ (by decide), hc]
    rfl
  · intro hc
    rw [findAttrL_rangeStage_ne o _ _ _ _ (by decide),
      findAttrL_rangeStage_ne o _ _ _ _ (by decide),
      findAttrL_capStage_ne _ _ _ _ (by decide)]
    show findAttrL (capStage jp.rise_capacitance _ _) _ = _
    rw [hc]
    show findAttrL (capStage jp.capacitance "capacitance" pg.attrs) _ = _
    rw [findAttrL_capStage_ne _ _ _ _ (by decide)]
    rfl
  · intro hc
    rw [findAttrL_rangeStage_ne o _ _ _ _ (by decide),
      findAttrL_rangeStage_ne o _ _ _ _ (by decide)]
    show findAttrL (capStage jp.fall_capacitance _ _) _ = _
    rw [hc]
    show findAttrL (capStage jp.rise_capacitance "rise_capacitance" _) _ = _
    rw [findAttrL_capStage_ne _ _ _ _ (by decide),
      findAttrL_capStage_ne _ _ _ _ (by decide)]
    rfl
  · intro v nm w hv hfound
    rw [findAttrL_rangeStage_ne o _ _ _ _ (by decide),
      findAttrL_rangeStage_ne o _ _ _ _ (by decide),
      findAttrL_capStage_ne _ _ _ _ (by decide),
      findAttrL_capStage_ne _ _ _ _ (by decide)]
    show findAttrL (capStage jp.capacitance "capacitance" pg.attrs) _ = _
    rw [hv]
    exact findAttrL_setSimpleFloat_self pg.attrs _ nm w v hfound

/-- Witness for C4: a patch giving only capacitance (2) leaves a previously
set rise_capacitance (3) unchanged in the group, while capacitance itself
is overwritten. -/
theorem C4_selective_capacitance_witness :
    findAttr
        (updateInputCapacitance noFail { pinName := "A", capacitance := some 2 }
          (LibGroup.mk "pin" ["A"]
            [.simple "capacitance" (.flt 1), .simple "rise_capacitance" (.flt 3)]
            []))
        "rise_capacitance" =
      some (.simple "rise_capacitance" (.flt 3)) ∧
    findAttr
        (updateInputCapacitance noFail { pinName := "A", capacitance := some 2 }
          (LibGroup.mk "pin" ["A"]
            [.simple "capacitance" (.flt 1), .simple "rise_capacitance" (.flt 3)]
            []))
        "capacitance" =
      some (.simple "capacitance" (.flt 2)) := by
  constructor
  · rw [(C4_selective_capacitance noFail { pinName := "A", capacitance := some 2 }
        (LibGroup.mk "pin" ["A"]
          [.simple "capacitance" (.flt 1), .simple "rise_capacitance" (.flt 3)]
          [])).2.1 rfl]
    decide
  · exact (C4_selective_capacitance noFail
        { pinName := "A", capacitance := some 2 }
        (LibGroup.mk "pin" ["A"]
          [.simple "capacitance" (.flt 1), .simple "rise_capacitance" (.flt 3)]
          [])).2.2.2 2 "capacitance" (.flt 1) rfl (by decide)

/-- optFold over an appended list runs the two parts in sequence. -/
theorem optFold_append {α β : Type} (f : β → α → Option β) (l1 l2 : List α)
    (b : β) :
    optFold f (l1 ++ l2) b =
      match optFold f l1 b with
      | some b2 => optFold f l2 b2
      | none => none := by
  induction l1 generalizing b with
  | nil => rfl
  | cons a as ih =>
    simp only [List.cons_append, optFold]
    cases f b a with
    | none => rfl
    | some b2 => exact ih b2

/-- Claim C6: a missing attribute never raises an error during extraction -
a leakage_power group without a value attribute yields value 0; a pin group
without a direction attribute is passed over and the pin walk carries on
unchanged; an output pin without a function attribute is still extracted,
its function empty. -/
theorem C6_missing_attribute_defaults (g : LibGroup) (ci : CellInfo)
    (pre post : List LibGroup) (pg : LibGroup) (ta : List TimingArc)
    (pa : List PowerArc) :
    (findAttr g "value" = none → (parseLeakage g).value = 0) ∧
    (pg.groupType = "pin" → findAttr pg "direction" = none →
      optFold processOnePin (pre ++ pg :: post) ci =
        optFold processOnePin (pre ++ post) ci) ∧
    (pg.groupType = "pin" → getStr (findAttr pg "direction") = some "output" →
      findAttr pg "function" = none →
      processTimingArcs pg [] = some ta → processPowerArcs pg [] = some pa →
      processOnePin ci pg =
        some { ci with
                outputPins := ci.outputPins ++
                  [{ pinName := (pg.names.head?).getD "", function := "",
                     timingArcs := ta, powerArcs := pa }] }) := by
  refine ⟨?_, ?_, ?_⟩
  · intro h
    simp [parseLeakage, h]
  · intro hpg hdir
    have hstep : ∀ b : CellInfo, processOnePin b pg = some b := by
      intro b
      simp [processOnePin, hpg, hdir, getStr]
    rw [optFold_append, optFold_append]
    cases optFold processOnePin pre ci with
    | none => rfl
    | some b =>
      show optFold processOnePin (pg :: post) b = optFold processOnePin post b
      simp only [optFold, hstep b]
  · intro hpg hdir hfun hta hpa
    have hfun2 : getStr (findAttr pg "function") = none := by rw [hfun]; rfl
    simp [processOnePin, hpg, hdir, hfun2, hta, hpa]

/-- Witness for C6: a leakage group with only a when attribute reads value
0, and an output pin group without a function attribute is extracted with
an empty function. -/
theorem C6_missing_attribute_defaults_witness :
    (parseLeakage
        (LibGroup.mk "leakage_power" [] [.simple "when" (.str "!A")] [])).value = 0 ∧
    processOnePin {}
        (LibGroup.mk "pin" ["Z"] [.simple "direction" (.str "output")] []) =
      some { outputPins := [{ pinName := "Z", function := "",
                              timingArcs := [], powerArcs := [] }] } := by
  constructor
  · exact (C6_missing_attribute_defaults
        (LibGroup.mk "leakage_power" [] [.simple "when" (.str "!A")] [])
        {} [] [] (LibGroup.mk "pin" ["Z"] [.simple "direction" (.str "output")] [])
        [] []).1 rfl
  · exact (C6_missing_attribute_defaults
        (LibGroup.mk "leakage_power" [] [.simple "when" (.str "!A")] [])
        {} [] [] (LibGroup.mk "pin" ["Z"] [.simple "direction" (.str "output")] [])
        [] []).2.2 rfl rfl rfl rfl rfl

/-- Lookup skips a member with a different key. -/
theorem lookupKey_cons_ne (p : String × Json) (l : List (String × Json))
    (k : String) (h : p.1 ≠ k) : lookupKey (p :: l) k = lookupKey l k := by
  simp [lookupKey, List.find?, beq_eq_false_iff_ne.mpr h]

/-- Lookup skips a single leading member with a different key. -/
theorem lookupKey_pair_append (s : String) (v : Json)
    (l : List (String × Json)) (k : String) (h : s ≠ k) :
    lookupKey ((s, v) :: l) k = lookupKey l k :=
  lookupKey_cons_ne (s, v) l k h

/-- Lookup hits a member with the key. -/
theorem lookupKey_cons_self (k : String) (v : Json) (l : List (String × Json)) :
    lookupKey ((k, v) :: l) k = some v := by
  simp [lookupKey, List.find?]

/-- Lookup skips an optional scalar member of a different key. -/
theorem lookupKey_optNumField_append (k2 : String) (v : Option ℚ)
    (l : List (String × Json)) (k : String) (h : k2 ≠ k) :
    lookupKey (optNumField k2 v ++ l) k = lookupKey l k := by
  cases v with
  | none => rfl
  | some c => exact lookupKey_cons_ne (k2, Json.num c) l k h

/-- Lookup skips a range member of a different key. -/
theorem lookupKey_rangeField_append (k2 : String) (r : Option ℚ × Option ℚ)
    (l : List (String × Json)) (k : String) (h : k2 ≠ k) :
    lookupKey (rangeField k2 r ++ l) k = lookupKey l k := by
  unfold rangeField
  by_cases hc : r.1.isSome || r.2.isSome
  · simp only [hc, if_pos, List.cons_append, List.nil_append]
    exact lookupKey_cons_ne _ l k h
  · simp only [hc, Bool.false_eq_true, if_neg, not_false_iff, List.nil_append]

/-- A lone list member of a different key holds nothing for the lookup. -/
theorem lookupKey_listField_ne (k2 : String) (xs : List Json) (k : String)
    (h : k2 ≠ k) : lookupKey (listField k2 xs) k = none := by
  unfold listField
  by_cases hc : xs.isEmpty
  · simp only [hc, if_pos]
    rfl
  · simp only [hc, Bool.false_eq_true, if_neg, not_false_iff]
    rw [lookupKey_cons_ne _ _ _ h]
    rfl

/-- Lookup skips a list member of a different key. -/
theorem lookupKey_listField_append (k2 : String) (xs : List Json)
    (l : List (String × Json)) (k : String) (h : k2 ≠ k) :
    lookupKey (listField k2 xs ++ l) k = lookupKey l k := by
  unfold listField
  by_cases hc : xs.isEmpty
  · simp only [hc, if_pos, List.nil_append]
  · simp only [hc, Bool.false_eq_true, if_neg, not_false_iff,
      List.cons_append, List.nil_append]
    exact lookupKey_cons_ne _ l k h

/-- Claim C7: the adapter writes a capacitance range as a two-element array
exactly when at least one side has a value, the missing side written 0.0;
and reading a present two-element range array back yields both sides
present - a side the writer defaulted is 0.0, not absent. -/
theorem C7_capacitance_range_adapter (pin : inputPinInfo) (pj : Json)
    (a b : ℚ) :
    (pin.rise_capacitance_range.1.isSome ∨ pin.rise_capacitance_range.2.isSome →
      (inputPinInfoToJson pin).lookup "rise_capacitance_range" =
        some (.arr [.num (pin.rise_capacitance_range.1.getD 0),
                    .num (pin.rise_capacitance_range.2.getD 0)])) ∧
    (pin.rise_capacitance_range = (none, none) →
      (inputPinInfoToJson pin).lookup "rise_capacitance_range" = none) ∧
    (pin.fall_capacitance_range.1.isSome ∨ pin.fall_capacitance_range.2.isSome →
      (inputPinInfoToJson pin).lookup "fall_capacitance_range" =
        some (.arr [.num (pin.fall_capacitance_range.1.getD 0),
                    .num (pin.fall_capacitance_range.2.getD 0)])) ∧
    (pin.fall_capacitance_range = (none, none) →
      (inputPinInfoToJson pin).lookup "fall_capacitance_range" = none) ∧
    (pj.lookup "rise_capacitance_range" = some (.arr [.num a, .num b]) →
      (parseInputPinJson pj).rise_capacitance_range = (some a, some b)) ∧
    (pj.lookup "fall_capacitance_range" = some (.arr [.num a, .num b]) →
      (parseInputPinJson pj).fall_capacitance_range = (some a, some b)) := by
  refine ⟨?_, ?_, ?_, ?_, ?_, ?_⟩
  · intro h
    show lookupKey _ _ = _
    rw [List.append_assoc, List.append_assoc, List.append_assoc,
      List.append_assoc, List.append_assoc, List.append_assoc]
    rw [List.singleton_append, lookupKey_pair_append _ _ _ _ (by decide),
      lookupKey_optNumField_append _ _ _ _ (by decide),
      lookupKey_optNumField_append _ _ _ _ (by decide),
      lookupKey_optNumField_append _ _ _ _ (by decide)]
    unfold rangeField
    rw [if_pos (Bool.or_eq_true _ _ ▸ Or.elim h (fun h1 => by simp [h1]) (fun h2 => by simp [h2]))]
    exact lookupKey_cons_self _ _ _
  · intro h
    show lookupKey _ _ = _
    rw [List.append_assoc, List.append_assoc, List.append_assoc,
      List.append_assoc, List.append_assoc, List.append_assoc]
    rw [List.singleton_append, lookupKey_pair_append _ _ _ _ (by decide),
      lookupKey_optNumField_append _ _ _ _ (by decide),
      lookupKey_optNumField_append _ _ _ _ (by decide),
      lookupKey_optNumField_append _ _ _ _ (by decide)]
    rw [show rangeField "rise_capacitance_range" pin.rise_capacitance_range = []
        from by rw [h]; rfl]
    rw [List.nil_append,
      lookupKey_rangeField_append _ _ _ _ (by decide),
      lookupKey_listField_append _ _ _ _ (by decide)]
    exact lookupKey_listField_ne _ _ _ (by decide)
  · intro h
    show lookupKey _ _ = _
    rw [List.append_assoc, List.append_assoc, List.append_assoc,
      List.append_assoc, List.append_assoc, List.append_assoc]
    rw [List.singleton_append, lookupKey_pair_append _ _ _ _ (by decide),
      lookupKey_optNumField_append _ _ _ _ (by decide),
      lookupKey_optNumField_append _ _ _ _ (by decide),
      lookupKey_optNumField_append _ _ _ _ (by decide),
      lookupKey_rangeField_append _ _ _ _ (by decide)]
    unfold rangeField
    rw [if_pos (Bool.or_eq_true _ _ ▸ Or.elim h (fun h1 => by simp [h1]) (fun h2 => by simp [h2]))]
    exact lookupKey_cons_self _ _ _
  · intro h
    show lookupKey _ _ = _
    rw [List.append_assoc, List.append_assoc, List.append_assoc,
      List.append_assoc, List.append_assoc, List.append_assoc]
    rw [List.singleton_append, lookupKey_pair_append _ _ _ _ (by decide),
      lookupKey_optNumField_append _ _ _ _ (by decide),
      lookupKey_optNumField_append _ _ _ _ (by decide),
      lookupKey_optNumField_append _ _ _ _ (by decide),
      lookupKey_rangeField_append _ _ _ _ (by decide)]
    rw [show rangeField "fall_capacitance_range" pin.fall_capacitance_range = []
        from by rw [h]; rfl]
    rw [List.nil_append,
      lookupKey_listField_append _ _ _ _ (by decide)]
    exact lookupKey_listField_ne _ _ _ (by decide)
  · intro h
    simp [parseInputPinJson, h, Json.getNum]
  · intro h
    simp [parseInputPinJson, h, Json.getNum]

/-- Witness for C7: a pin whose rise range has only the lower side (value
1) is written as the array [1, 0]; reading that array back gives both
sides present, the defaulted one 0. -/
theorem C7_capacitance_range_adapter_witness :
    (inputPinInfoToJson
          { pinName := "A", rise_capacitance_range := (some 1, none) }).lookup
        "rise_capacitance_range" =
      some (.arr [.num 1, .num 0]) ∧
    (parseInputPinJson
          (.obj [("pin_name", .str "A"),
                 ("rise_capacitance_range", .arr [.num 1, .num 0])])).rise_capacitance_range =
      (some 1, some 0) := by
  constructor
  · exact (C7_capacitance_range_adapter
        { pinName := "A", rise_capacitance_range := (some 1, none) }
        (.obj [("pin_name", .str "A"),
               ("rise_capacitance_range", .arr [.num 1, .num 0])]) 1 0).1
      (Or.inl rfl)
  · exact (C7_capacitance_range_adapter
        { pinName := "A", rise_capacitance_range := (some 1, none) }
        (.obj [("pin_name", .str "A"),
               ("rise_capacitance_range", .arr [.num 1, .num 0])]) 1 0).2.2.2.2.1
      rfl

/-! ### Lemmas for the empty-Lut replacement behaviour (claim C3) -/

/-- Deleting an absent attribute changes nothing. -/
theorem eraseFirstAttr_not_found (attrs : List LibAttr) (n : String)
    (h : findAttrL attrs n = none) : eraseFirstAttr attrs n = attrs := by
  induction attrs with
  | nil => rfl
  | cons a rest ih =>
    by_cases ha : attrName a == n
    · exact absurd h (by simp [findAttrL, List.find?, ha])
    · have hb : (attrName a == n) = false := by simpa using ha
      have h2 : findAttrL rest n = none := by
        simpa [findAttrL, List.find?, hb] using h
      simp [eraseFirstAttr, hb, ih h2]

/-- In the environment without soft failures, recreateComplexAttr always
erases the old attribute (if any) and reports success. -/
theorem recreateComplexAttr_noFail (attrs : List LibAttr) (n : String) :
    recreateComplexAttr noFail attrs n = (eraseFirstAttr attrs n, true) := by
  unfold recreateComplexAttr
  cases hf : findAttrL attrs n with
  | some a => simp [noFail]
  | none => simp [noFail, eraseFirstAttr_not_found attrs n hf]

/-- No attribute of a name that does not occur. -/
theorem findAttrL_none_of_count_zero (attrs : List LibAttr) (n : String)
    (h : (attrs.map attrName).count n = 0) : findAttrL attrs n = none := by
  induction attrs with
  | nil => rfl
  | cons a rest ih =>
    rw [List.map_cons, List.count_cons] at h
    have h1 : (rest.map attrName).count n = 0 := by omega
    have h2 : ¬(attrName a = n) := by
      intro hc
      simp [hc] at h
    have hb : (attrName a == n) = false := beq_eq_false_iff_ne.mpr h2
    simp [findAttrL, List.find?, hb] at ih ⊢
    exact ih h1

/-- Erasing the only occurrence leaves no attribute of that name. -/
theorem findAttrL_eraseFirst_self (attrs : List LibAttr) (n : String)
    (h : (attrs.map attrName).count n ≤ 1) :
    findAttrL (eraseFirstAttr attrs n) n = none := by
  induction attrs with
  | nil => rfl
  | cons a rest ih =>
    rw [List.map_cons, List.count_cons] at h
    by_cases ha : attrName a == n
    · have haeq : attrName a = n := by simpa using ha
      have h0 : (rest.map attrName).count n = 0 := by
        simp [haeq] at h
        omega
      simp only [eraseFirstAttr, ha, if_pos]
      exact findAttrL_none_of_count_zero rest n h0
    · have hb : (attrName a == n) = false := by simpa using ha
      have h1 : (rest.map attrName).count n ≤ 1 := by omega
      simp only [eraseFirstAttr, hb, Bool.false_eq_true, if_neg, not_false_iff]
      simp [findAttrL, List.find?, hb]
      simpa [findAttrL] using ih h1

/-- Erasing never adds occurrences of any name. -/
theorem count_attrName_eraseFirst_le (attrs : List LibAttr) (n m : String) :
    (((eraseFirstAttr attrs n).map attrName).count m) ≤
      ((attrs.map attrName).count m) := by
  induction attrs with
  | nil => exact Nat.le_refl _
  | cons a rest ih =>
    by_cases ha : attrName a == n
    · simp only [eraseFirstAttr, ha, if_pos, List.map_cons, List.count_cons]
      omega
    · have hb : (attrName a == n) = false := by simpa using ha
      simp only [eraseFirstAttr, hb, Bool.false_eq_true, if_neg, not_false_iff,
        List.map_cons, List.count_cons]
      omega

/-- The type tag survives addArcLutGroup. -/
theorem addArcLutGroup_groupType (o : SoftOracle) (lut : DataLut)
    (g : LibGroup) : (addArcLutGroup o lut g).groupType = g.groupType := by
  unfold addArcLutGroup
  by_cases h : (recreateComplexAttr o g.attrs "index_1").2 <;>
    simp only [h, Bool.false_eq_true, if_pos, if_neg, not_false_iff] <;>
    cases g <;> rfl

/-- addArcLutGroup of the entirely empty Lut, on a group whose attribute
names are distinct: index_1 is rewritten to the single empty joined string,
values is rewritten to an empty value list, index_2 is left as found. -/
theorem addArcLutGroup_empty (g : LibGroup)
    (hnodup : (g.attrs.map attrName).Nodup) :
    findAttr (addArcLutGroup noFail {} g) "index_1" =
      some (.complex "index_1" [.str ""]) ∧
    findAttr (addArcLutGroup noFail {} g) "values" =
      some (.complex "values" []) ∧
    findAttr (addArcLutGroup noFail {} g) "index_2" = findAttr g "index_2" := by
  have hcount := List.nodup_iff_count_le_one.mp hnodup
  unfold addArcLutGroup recreateAndWrite
  simp only [recreateComplexAttr_noFail, findAttr_setAttrs, List.isEmpty_nil,
    if_true, List.map_nil]
  have hc1 : ((eraseFirstAttr g.attrs "index_1").map attrName).count "values" ≤ 1 :=
    Nat.le_trans (count_attrName_eraseFirst_le g.attrs "index_1" "values")
      (hcount "values")
  have he1 : findAttrL (eraseFirstAttr g.attrs "index_1") "index_1" = none :=
    findAttrL_eraseFirst_self g.attrs "index_1" (hcount "index_1")
  have ha1 :
      findAttrL
          (eraseFirstAttr g.attrs "index_1" ++
            [.complex "index_1" [.str (encodeRow ([] : List ℚ))]])
          "index_1" =
        some (.complex "index_1" [.str (encodeRow ([] : List ℚ))]) := by
    rw [findAttrL_append_of_none _ _ _ he1]
    rfl
  have hcv :
      (((eraseFirstAttr g.attrs "index_1" ++
            [LibAttr.complex "index_1"
              [AttrVal.str (encodeRow ([] : List ℚ))]]).map
          attrName).count "values") ≤ 1 := by
    rw [List.map_append, List.count_append]
    simpa [attrName] using hc1
  refine ⟨?_, ?_, ?_⟩
  · rw [findAttrL_append_of_some _ _ _ _
        (by
          rw [findAttrL_eraseFirst_ne _ _ _ (by decide)]
          exact ha1)]
    rfl
  · rw [findAttrL_append_of_none _ _ _
        (findAttrL_eraseFirst_self _ "values" hcv)]
    rfl
  · rw [findAttrL_append_complex_ne _ _ _ _ (by decide),
      findAttrL_eraseFirst_ne _ _ _ (by decide),
      findAttrL_append_complex_ne _ _ _ _ (by decide),
      findAttrL_eraseFirst_ne _ _ _ (by decide)]
    rfl

/-- The element view of addArcLut: the i-th subgroup is transformed exactly
when its type tag matches. -/
theorem addArcLut_get (o : SoftOracle) (t : String) (lut : DataLut)
    (p : LibGroup) (i : ℕ) (h : i < p.subs.length) :
    ∃ h2 : i < (addArcLut o p t lut).subs.length,
      (addArcLut o p t lut).subs.get ⟨i, h2⟩ =
        applySlot o t lut (p.subs.get ⟨i, h⟩) := by
  have hs : (addArcLut o p t lut).subs = p.subs.map (applySlot o t lut) := by
    cases p
    rfl
  refine ⟨by rw [hs, List.length_map]; exact h, ?_⟩
  simp only [hs, List.get_eq_getElem, List.getElem_map]

/-- applySlot of a matching type tag transforms the subgroup. -/
theorem applySlot_eq (o : SoftOracle) (t : String) (lut : DataLut)
    (g : LibGroup) (h : g.groupType = t) :
    applySlot o t lut g = addArcLutGroup o lut g := by
  unfold applySlot
  rw [if_pos (by simp [h])]

/-- applySlot of a different type tag leaves the subgroup alone. -/
theorem applySlot_ne (o : SoftOracle) (t : String) (lut : DataLut)
    (g : LibGroup) (h : g.groupType ≠ t) : applySlot o t lut g = g := by
  unfold applySlot
  rw [if_neg (by simp [h])]

/-- The element view of addTimingArcValues: the i-th subgroup of the
timing group passes through the six slot steps in source order. -/
theorem addTimingArcValues_get (o : SoftOracle) (arc : TimingArc)
    (parent : LibGroup) (i : ℕ) (h : i < parent.subs.length) :
    ∃ h2 : i < (addTimingArcValues o arc parent).subs.length,
      (addTimingArcValues o arc parent).subs.get ⟨i, h2⟩ =
        applySlot o "fall_constraint" arc.fallConstrain
          (applySlot o "rise_constraint" arc.riseConstrain
            (applySlot o "fall_transition" arc.fallTransition
              (applySlot o "cell_fall" arc.cellFall
                (applySlot o "rise_transition" arc.riseTransition
                  (applySlot o "cell_rise" arc.cellRise
                    (parent.subs.get ⟨i, h⟩)))))) := by
  obtain ⟨h1, e1⟩ := addArcLut_get o "cell_rise" arc.cellRise parent i h
  obtain ⟨h2, e2⟩ := addArcLut_get o "rise_transition" arc.riseTransition _ i h1
  obtain ⟨h3, e3⟩ := addArcLut_get o "cell_fall" arc.cellFall _ i h2
  obtain ⟨h4, e4⟩ := addArcLut_get o "fall_transition" arc.fallTransition _ i h3
  obtain ⟨h5, e5⟩ := addArcLut_get o "rise_constraint" arc.riseConstrain _ i h4
  obtain ⟨h6, e6⟩ := addArcLut_get o "fall_constraint" arc.fallConstrain _ i h5
  rw [e1] at e2
  rw [e2] at e3
  rw [e3] at e4
  rw [e4] at e5
  rw [e5] at e6
  exact ⟨h6, e6⟩

/-- On a subgroup carrying one of the six slot type tags, the six slot
steps amount to one addArcLutGroup with the Lut of that slot: the five
other steps skip it (its tag differs, and addArcLutGroup preserves the
tag). -/
theorem applySlotChain (o : SoftOracle) (arc : TimingArc) (g : LibGroup)
    (t : String)
    (ht : t = "cell_rise" ∨ t = "rise_transition" ∨ t = "cell_fall" ∨
      t = "fall_transition" ∨ t = "rise_constraint" ∨ t = "fall_constraint")
    (htype : g.groupType = t) :
    applySlot o "fall_constraint" arc.fallConstrain
      (applySlot o "rise_constraint" arc.riseConstrain
        (applySlot o "fall_transition" arc.fallTransition
          (applySlot o "cell_fall" arc.cellFall
            (applySlot o "rise_transition" arc.riseTransition
              (applySlot o "cell_rise" arc.cellRise g))))) =
    addArcLutGroup o (arcLutOfSlot arc t) g := by
  rcases ht with rfl | rfl | rfl | rfl | rfl | rfl
  · rw [applySlot_eq o "cell_rise" arc.cellRise g htype,
      applySlot_ne o "rise_transition" arc.riseTransition _
        (by rw [addArcLutGroup_groupType, htype]; decide),
      applySlot_ne o "cell_fall" arc.cellFall _
        (by rw [addArcLutGroup_groupType, htype]; decide),
      applySlot_ne o "fall_transition" arc.fallTransition _
        (by rw [addArcLutGroup_groupType, htype]; decide),
      applySlot_ne o "rise_constraint" arc.riseConstrain _
        (by rw [addArcLutGroup_groupType, htype]; decide),
      applySlot_ne o "fall_constraint" arc.fallConstrain _
        (by rw [addArcLutGroup_groupType, htype]; decide)]
    rfl
  · rw [applySlot_ne o "cell_rise" arc.cellRise g (by rw [htype]; decide),
      applySlot_eq o "rise_transition" arc.riseTransition g htype,
      applySlot_ne o "cell_fall" arc.cellFall _
        (by rw [addArcLutGroup_groupType, htype]; decide),
      applySlot_ne o "fall_transition" arc.fallTransition _
        (by rw [addArcLutGroup_groupType, htype]; decide),
      applySlot_ne o "rise_constraint" arc.riseConstrain _
        (by rw [addArcLutGroup_groupType, htype]; decide),
      applySlot_ne o "fall_constraint" arc.fallConstrain _
        (by rw [addArcLutGroup_groupType, htype]; decide)]
    rfl
  · rw [applySlot_ne o "cell_rise" arc.cellRise g (by rw [htype]; decide),
      applySlot_ne o "rise_transition" arc.riseTransition g
        (by rw [htype]; decide),
      applySlot_eq o "cell_fall" arc.cellFall g htype,
      applySlot_ne o "fall_transition" arc.fallTransition _
        (by rw [addArcLutGroup_groupType, htype]; decide),
      applySlot_ne o "rise_constraint" arc.riseConstrain _
        (by rw [addArcLutGroup_groupType, htype]; decide),
      applySlot_ne o "fall_constraint" arc.fallConstrain _
        (by rw [addArcLutGroup_groupType, htype]; decide)]
    rfl
  · rw [applySlot_ne o "cell_rise" arc.cellRise g (by rw [htype]; decide),
      applySlot_ne o "rise_transition" arc.riseTransition g
        (by rw [htype]; decide),
      applySlot_ne o "cell_fall" arc.cellFall g (by rw [htype]; decide),
      applySlot_eq o "fall_transition" arc.fallTransition g htype,
      applySlot_ne o "rise_constraint" arc.riseConstrain _
        (by rw [addArcLutGroup_groupType, htype]; decide),
      applySlot_ne o "fall_constraint" arc.fallConstrain _
        (by rw [addArcLutGroup_groupType, htype]; decide)]
    rfl
  · rw [applySlot_ne o "cell_rise" arc.cellRise g (by rw [htype]; decide),
      applySlot_ne o "rise_transition" arc.riseTransition g
        (by rw [htype]; decide),
      applySlot_ne o "cell_fall" arc.cellFall g (by rw [htype]; decide),
      applySlot_ne o "fall_transition" arc.fallTransition g
        (by rw [htype]; decide),
      applySlot_eq o "rise_constraint" arc.riseConstrain g htype,
      applySlot_ne o "fall_constraint" arc.fallConstrain _
        (by rw [addArcLutGroup_groupType, htype]; decide)]
    rfl
  · rw [applySlot_ne o "cell_rise" arc.cellRise g (by rw [htype]; decide),
      applySlot_ne o "rise_transition" arc.riseTransition g
        (by rw [htype]; decide),
      applySlot_ne o "cell_fall" arc.cellFall g (by rw [htype]; decide),
      applySlot_ne o "fall_transition" arc.fallTransition g
        (by rw [htype]; decide),
      applySlot_ne o "rise_constraint" arc.riseConstrain g
        (by rw [htype]; decide),
      applySlot_eq o "fall_constraint" arc.fallConstrain g htype]
    rfl

/-- Claim C3 (amended): for a matched timing group, a present-but-empty
Lut in the patch for any of the six LUT slots still rewrites that slot's
index_1 (to one empty joined string) and values (cleared) attributes - it
does not leave them unchanged - while the stored index_2 attribute is
rewritten only when the patch Lut's index2 is non-empty, hence here left
as found. -/
theorem C3_empty_lut_still_replaces (arc : TimingArc) (parent : LibGroup)
    (i : ℕ) (t : String) (h : i < parent.subs.length)
    (ht : t = "cell_rise" ∨ t = "rise_transition" ∨ t = "cell_fall" ∨
      t = "fall_transition" ∨ t = "rise_constraint" ∨ t = "fall_constraint")
    (hlut : arcLutOfSlot arc t = {})
    (htype : (parent.subs.get ⟨i, h⟩).groupType = t)
    (hnodup : ((parent.subs.get ⟨i, h⟩).attrs.map attrName).Nodup) :
    ∃ h2 : i < (addTimingArcValues noFail arc parent).subs.length,
      findAttr ((addTimingArcValues noFail arc parent).subs.get ⟨i, h2⟩)
          "index_1" = some (.complex "index_1" [.str ""]) ∧
      findAttr ((addTimingArcValues noFail arc parent).subs.get ⟨i, h2⟩)
          "values" = some (.complex "values" []) ∧
      findAttr ((addTimingArcValues noFail arc parent).subs.get ⟨i, h2⟩)
          "index_2" = findAttr (parent.subs.get ⟨i, h⟩) "index_2" := by
  obtain ⟨h6, e6⟩ := addTimingArcValues_get noFail arc parent i h
  rw [applySlotChain noFail arc (parent.subs.get ⟨i, h⟩) t ht htype] at e6
  rw [hlut] at e6
  refine ⟨h6, ?_⟩
  rw [e6]
  exact addArcLutGroup_empty (parent.subs.get ⟨i, h⟩) hnodup

/-- Counterexample to claim C3 as stated: on a cell_rise slot storing
index_1, index_2 and values, a matched patch arc whose Luts are all
present-but-empty leaves the stored index_2 attribute exactly as it was
(while index_1 and values are rewritten) - not a full replacement of the
slot's stored index attributes. -/
theorem C3_index2_not_replaced :
    ((addTimingArcValues noFail {}
        (LibGroup.mk "timing" [] []
          [LibGroup.mk "cell_rise" []
            [.complex "index_1" [.str "1, 2"],
             .complex "index_2" [.str "3"],
             .complex "values" [.str "4, 5"]] []])).subs.map
      (fun g => findAttr g "index_2")) =
      [some (.complex "index_2" [.str "3"])] ∧
    findAttr
        (LibGroup.mk "cell_rise" []
          [.complex "index_1" [.str "1, 2"],
           .complex "index_2" [.str "3"],
           .complex "values" [.str "4, 5"]] [])
        "index_2" =
      some (.complex "index_2" [.str "3"]) := by
  constructor <;> decide

/-- Witness for C3 (amended): on a concrete stored fall_transition slot
the empty patch Lut rewrites index_1 to the empty string, clears values,
and leaves index_2. -/
theorem C3_empty_lut_still_replaces_witness :
    ∃ h2 : 0 <
        (addTimingArcValues noFail {}
          (LibGroup.mk "timing" [] []
            [LibGroup.mk "fall_transition" []
              [.complex "index_1" [.str "9"],
               .complex "index_2" [.str "7"],
               .complex "values" [.str "8"]] []])).subs.length,
      findAttr
          ((addTimingArcValues noFail {}
            (LibGroup.mk "timing" [] []
              [LibGroup.mk "fall_transition" []
                [.complex "index_1" [.str "9"],
                 .complex "index_2" [.str "7"],
                 .complex "values" [.str "8"]] []])).subs.get ⟨0, h2⟩)
          "index_1" = some (.complex "index_1" [.str ""]) ∧
      findAttr
          ((addTimingArcValues noFail {}
            (LibGroup.mk "timing" [] []
              [LibGroup.mk "fall_transition" []
                [.complex "index_1" [.str "9"],
                 .complex "index_2" [.str "7"],
                 .complex "values" [.str "8"]] []])).subs.get ⟨0, h2⟩)
          "values" = some (.complex "values" []) ∧
      findAttr
          ((addTimingArcValues noFail {}
            (LibGroup.mk "timing" [] []
              [LibGroup.mk "fall_transition" []
                [.complex "index_1" [.str "9"],
                 .complex "index_2" [.str "7"],
                 .complex "values" [.str "8"]] []])).subs.get ⟨0, h2⟩)
          "index_2" =
        findAttr
          ((LibGroup.mk "timing" [] []
            [LibGroup.mk "fall_transition" []
              [.complex "index_1" [.str "9"],
               .complex "index_2" [.str "7"],
               .complex "values" [.str "8"]] []]).subs.get ⟨0, by decide⟩)
          "index_2" :=
  C3_empty_lut_still_replaces {}
    (LibGroup.mk "timing" [] []
      [LibGroup.mk "fall_transition" []
        [.complex "index_1" [.str "9"],
         .complex "index_2" [.str "7"],
         .complex "values" [.str "8"]] []])
    0 "fall_transition" (by decide)
    (Or.inr (Or.inr (Or.inr (Or.inl rfl)))) (by decide) rfl (by decide)

/-! ### Lemmas for the LUT codec round trip (claim C1) -/

/-- Characters the float formatter can produce. -/
def goodChar (c : Char) : Prop :=
  c.isDigit = true ∨ c = '.' ∨ c = '+' ∨ c = '-' ∨ c = 'e'

instance (c : Char) : Decidable (goodChar c) := by
  unfold goodChar
  infer_instance

/-- Digit characters are digits. -/
theorem digitChar_isDigit (d : ℕ) (hd : d < 10) :
    (digitChar d).isDigit = true := by
  interval_cases d <;> decide

/-- Every character natDigitsAux produces is a digit. -/
theorem natDigitsAux_isDigit (fuel n : ℕ) :
    ∀ c ∈ natDigitsAux fuel n, c.isDigit = true := by
  induction fuel generalizing n with
  | zero => intro c hc; exact absurd hc (by simp [natDigitsAux])
  | succ f ih =>
    intro c hc
    unfold natDigitsAux at hc
    by_cases hn : n = 0
    · rw [if_pos hn] at hc
      exact absurd hc (by simp)
    · rw [if_neg hn] at hc
      rcases List.mem_append.mp hc with h1 | h2
      · exact ih (n / 10) c h1
      · have : c = digitChar (n % 10) := by simpa using h2
        rw [this]
        exact digitChar_isDigit _ (Nat.mod_lt n (by norm_num))

/-- Every character natDigits produces is a digit. -/
theorem natDigits_isDigit (n : ℕ) : ∀ c ∈ natDigits n, c.isDigit = true := by
  intro c hc
  unfold natDigits at hc
  by_cases hn : n = 0
  · rw [if_pos hn] at hc
    have : c = '0' := by simpa using hc
    rw [this]; decide
  · rw [if_neg hn] at hc
    exact natDigitsAux_isDigit _ _ c hc

/-- dropTrailingZeros keeps only characters of its input. -/
theorem dropTrailingZeros_subset (ds : List Char) :
    ∀ c ∈ dropTrailingZeros ds, c ∈ ds := by
  intro c hc
  unfold dropTrailingZeros at hc
  rw [List.mem_reverse] at hc
  have := (List.dropWhile_sublist (l := ds.reverse)
    (p := fun c => c = '0')).subset hc
  exact List.mem_reverse.mp this


/-- Every character the significand printer produces is a digit, a point, a
sign or the exponent marker. -/
theorem formatSig_good (m : ℕ) (e : Int) : ∀ c ∈ formatSig m e, goodChar c := by
  intro c hc
  simp only [formatSig] at hc
  split at hc
  · split at hc
    · rcases List.mem_append.mp hc with h1 | h2
      · exact Or.inl (natDigits_isDigit _ c (List.take_subset _ _ h1))
      · split at h2
        · exact absurd h2 (by simp)
        · rcases List.mem_cons.mp h2 with h3 | h4
          · rw [h3]; exact (by decide : goodChar '.')
          · exact Or.inl (natDigits_isDigit _ c
              (List.drop_subset _ _ (dropTrailingZeros_subset _ c h4)))
    · rcases List.mem_cons.mp hc with h1 | h2
      · rw [h1]; exact Or.inl (by decide)
      · rcases List.mem_cons.mp h2 with h3 | h4
        · rw [h3]; exact (by decide : goodChar '.')
        · rcases List.mem_append.mp h4 with h5 | h6
          · rw [List.eq_of_mem_replicate h5]; exact Or.inl (by decide)
          · exact Or.inl (natDigits_isDigit _ c (dropTrailingZeros_subset _ c h6))
  · rcases List.mem_append.mp hc with h1 | h2
    · rcases List.mem_cons.mp h1 with h3 | h4
      · cases hds : natDigits m with
        | nil => rw [h3, hds]; exact Or.inl (by decide)
        | cons d0 ds2 =>
          rw [h3, hds]
          exact Or.inl (natDigits_isDigit m d0 (by rw [hds]; exact List.mem_cons_self _ _))
      · split at h4
        · exact absurd h4 (by simp)
        · rcases List.mem_cons.mp h4 with h5 | h6
          · rw [h5]; exact (by decide : goodChar '.')
          · exact Or.inl (natDigits_isDigit _ c
              (List.tail_subset _ (dropTrailingZeros_subset _ c h6)))
    · rcases List.mem_cons.mp h2 with h3 | h4
      · rw [h3]; exact (by decide : goodChar 'e')
      · rcases List.mem_cons.mp h4 with h5 | h6
        · split at h5
          · rw [h5]; exact (by decide : goodChar '-')
          · rw [h5]; exact (by decide : goodChar '+')
        · split at h6
          · rcases List.mem_cons.mp h6 with h7 | h8
            · rw [h7]; exact Or.inl (by decide)
            · exact Or.inl (natDigits_isDigit _ c h8)
          · exact Or.inl (natDigits_isDigit _ c h6)

/-- Every character of the positive formatter is good. -/
theorem formatPos_good (n d : ℕ) : ∀ c ∈ formatPos n d, goodChar c := by
  intro c hc
  simp only [formatPos] at hc
  split at hc
  · exact formatSig_good _ _ c hc
  · exact formatSig_good _ _ c hc

/-- Every character of the float formatter is good. -/
theorem formatFloat_good (q : ℚ) : ∀ c ∈ formatFloat q, goodChar c := by
  intro c hc
  unfold formatFloat at hc
  split at hc
  · rw [show c = '0' from by simpa using hc]; exact Or.inl (by decide)
  · split at hc
    · rcases List.mem_cons.mp hc with h1 | h2
      · rw [h1]; exact (by decide : goodChar '-')
      · exact formatPos_good _ _ c h2
    · exact formatPos_good _ _ c hc

/-- The formatter never emits a comma. -/
theorem formatFloat_no_comma (q : ℚ) : ∀ c ∈ formatFloat q, c ≠ ',' := by
  intro c hc heq
  rcases formatFloat_good q c hc with h | h | h | h | h <;> rw [heq] at h <;>
    exact absurd h (by decide)

/-- The formatter never emits whitespace. -/
theorem formatFloat_not_space (q : ℚ) :
    ∀ c ∈ formatFloat q, isSpaceChar c = false := by
  intro c hc
  rcases formatFloat_good q c hc with h | h | h | h | h
  · unfold Char.isDigit at h
    simp only [Bool.and_eq_true, decide_eq_true_eq] at h
    unfold isSpaceChar
    have h1 : ¬(c = ' ') := by
      intro hc2; rw [hc2] at h; exact absurd h.1 (by decide)
    have h2 : ¬(c = '\t') := by
      intro hc2; rw [hc2] at h; exact absurd h.1 (by decide)
    have h3 : ¬(c = '\n') := by
      intro hc2; rw [hc2] at h; exact absurd h.1 (by decide)
    have h4 : ¬(c = '\r') := by
      intro hc2; rw [hc2] at h; exact absurd h.1 (by decide)
    have h5 : ¬(c = '\x0b') := by
      intro hc2; rw [hc2] at h; exact absurd h.1 (by decide)
    have h6 : ¬(c = '\x0c') := by
      intro hc2; rw [hc2] at h; exact absurd h.1 (by decide)
    simp [h1, h2, h3, h4, h5, h6]
  all_goals (rw [h]; decide)

/-- natDigits never returns the empty string. -/
theorem natDigits_ne_nil (n : ℕ) : natDigits n ≠ [] := by
  unfold natDigits
  by_cases hn : n = 0
  · simp [hn]
  · rw [if_neg hn]
    unfold natDigitsAux
    rw [if_neg hn]
    simp

/-- The significand printer never returns the empty string. -/
theorem formatSig_ne_nil (m : ℕ) (e : Int) : formatSig m e ≠ [] := by
  simp only [formatSig]
  split
  · split
    · intro hnil
      rcases List.append_eq_nil.mp hnil with ⟨h1, _⟩
      cases hds : natDigits m with
      | nil => exact natDigits_ne_nil m hds
      | cons a l =>
        rw [hds, List.take_succ_cons] at h1
        exact absurd h1 (by simp)
    · simp
  · simp

/-- The positive formatter never returns the empty string. -/
theorem formatPos_ne_nil (n d : ℕ) : formatPos n d ≠ [] := by
  simp only [formatPos]
  split
  · exact formatSig_ne_nil _ _
  · exact formatSig_ne_nil _ _

/-- The float formatter never returns the empty string. -/
theorem formatFloat_ne_nil (q : ℚ) : formatFloat q ≠ [] := by
  unfold formatFloat
  split
  · simp
  · split
    · simp
    · exact formatPos_ne_nil _ _

/-- Splitting a delimiter-free string gives that one token. -/
theorem splitChar_no_sep (sep : Char) (A : List Char)
    (h : ∀ c ∈ A, c ≠ sep) : splitChar sep A = [A] := by
  induction A with
  | nil => rfl
  | cons a as ih =>
    have ha : ¬(a = sep) := h a (List.mem_cons_self _ _)
    unfold splitChar
    rw [if_neg ha, ih (fun c hc => h c (List.mem_cons_of_mem _ hc))]

/-- A delimiter-free prefix is glued onto the first token of the rest. -/
theorem splitChar_append (sep : Char) (A B : List Char)
    (h : ∀ c ∈ A, c ≠ sep) (t : List Char) (ts : List (List Char))
    (hB : splitChar sep B = t :: ts) :
    splitChar sep (A ++ B) = (A ++ t) :: ts := by
  induction A with
  | nil => simpa using hB
  | cons a as ih =>
    have ha : ¬(a = sep) := h a (List.mem_cons_self _ _)
    have ih2 := ih (fun c hc => h c (List.mem_cons_of_mem _ hc))
    simp only [List.cons_append]
    unfold splitChar
    rw [if_neg ha, ih2]

/-- dropWhile over a prefix every element of which passes. -/
theorem dropWhile_append_all {p : Char → Bool} (sp cs : List Char)
    (h : ∀ c ∈ sp, p c = true) :
    (sp ++ cs).dropWhile p = cs.dropWhile p := by
  induction sp with
  | nil => rfl
  | cons a as ih =>
    rw [List.cons_append, List.dropWhile_cons, if_pos (h a (List.mem_cons_self _ _))]
    exact ih (fun c hc => h c (List.mem_cons_of_mem _ hc))

/-- stod skips a whitespace prefix. -/
theorem stodQ_skips_spaces (sp cs : List Char)
    (h : ∀ c ∈ sp, isSpaceChar c = true) :
    stodQ (sp ++ cs) = stodQ cs := by
  unfold stodQ
  rw [dropWhile_append_all sp cs h]

/-- The round trip for a non-empty row, allowing a whitespace prefix (what
the `", "` join leaves in front of every later token). -/
theorem decode_encode_aux (rest : List ℚ) : ∀ (x : ℚ) (sp : List Char),
    (∀ c ∈ sp, isSpaceChar c = true) →
    stodQ (formatFloat x) = some x →
    (∀ y ∈ rest, stodQ (formatFloat y) = some y) →
    decodeRowChars (sp ++ encodeRowChars (x :: rest)) = some (x :: rest) := by
  induction rest with
  | nil =>
    intro x sp hsp hx _
    unfold decodeRowChars
    have hA : ∀ c ∈ sp ++ formatFloat x, c ≠ ',' := by
      intro c hc
      rcases List.mem_append.mp hc with h1 | h2
      · intro he; rw [he] at h1; exact absurd (hsp ',' h1) (by decide)
      · exact formatFloat_no_comma x c h2
    rw [show encodeRowChars [x] = formatFloat x from rfl]
    rw [splitChar_no_sep ',' (sp ++ formatFloat x) hA]
    have hne : (sp ++ formatFloat x) ≠ [] := by
      intro h0
      exact formatFloat_ne_nil x (List.append_eq_nil.mp h0).2
    rw [show ([sp ++ formatFloat x].filter (fun t => !t.isEmpty)) =
        [sp ++ formatFloat x] from by
      cases hA2 : sp ++ formatFloat x with
      | nil => exact absurd hA2 hne
      | cons a l => simp [List.filter]]
    unfold optMapList
    rw [stodQ_skips_spaces sp (formatFloat x) hsp, hx]
    rfl
  | cons y rest2 ih =>
    intro x sp hsp hx hrest
    rw [show encodeRowChars (x :: y :: rest2) =
        formatFloat x ++ ',' :: ' ' :: encodeRowChars (y :: rest2) from rfl]
    have hA : ∀ c ∈ sp ++ formatFloat x, c ≠ ',' := by
      intro c hc
      rcases List.mem_append.mp hc with h1 | h2
      · intro he; rw [he] at h1; exact absurd (hsp ',' h1) (by decide)
      · exact formatFloat_no_comma x c h2
    have hsplit : splitChar ',' (',' :: (' ' :: encodeRowChars (y :: rest2))) =
        [] :: splitChar ',' (' ' :: encodeRowChars (y :: rest2)) := by
      conv_lhs => unfold splitChar
      rw [if_pos rfl]
    rw [show sp ++ (formatFloat x ++ ',' :: ' ' :: encodeRowChars (y :: rest2)) =
        (sp ++ formatFloat x) ++ (',' :: ' ' :: encodeRowChars (y :: rest2)) from
      (List.append_assoc _ _ _).symm]
    unfold decodeRowChars
    rw [splitChar_append ',' (sp ++ formatFloat x) _ hA _ _ hsplit]
    rw [List.append_nil]
    have hne : (sp ++ formatFloat x) ≠ [] := by
      intro h0
      exact formatFloat_ne_nil x (List.append_eq_nil.mp h0).2
    rw [show (((sp ++ formatFloat x) ::
          splitChar ',' (' ' :: encodeRowChars (y :: rest2))).filter
            (fun t => !t.isEmpty)) =
        (sp ++ formatFloat x) ::
          ((splitChar ',' (' ' :: encodeRowChars (y :: rest2))).filter
            (fun t => !t.isEmpty)) from by
      cases hA2 : sp ++ formatFloat x with
      | nil => exact absurd hA2 hne
      | cons a l => simp [List.filter]]
    unfold optMapList
    rw [stodQ_skips_spaces sp (formatFloat x) hsp, hx]
    have hrec := ih y [' '] (by decide) (hrest y (List.mem_cons_self _ _))
      (fun z hz => hrest z (List.mem_cons_of_mem _ hz))
    rw [show ([' '] ++ encodeRowChars (y :: rest2)) =
        ' ' :: encodeRowChars (y :: rest2) from rfl] at hrec
    unfold decodeRowChars at hrec
    rw [hrec]
    rfl

/-- Counterexample to claim C1 as stated: the high-precision value
0.1234567 (mkRat 1234567 10000000) is encoded - through the default
ostream precision of 6 significant digits - as "0.123457", which decodes
to 0.123457, not to the original value. -/
theorem C1_high_precision_not_roundtrip :
    decodeRow (encodeRow [mkRat 1234567 10000000]) =
      some [mkRat 123457 1000000] ∧
    encodeRow [mkRat 1234567 10000000] = "0.123457" ∧
    decodeRow (encodeRow [mkRat 1234567 10000000]) ≠
      some [mkRat 1234567 10000000] := by
  refine ⟨by decide, by decide, by decide⟩

/-- Claim C1 (amended): the row codec round-trips exactly those vectors
every component of which is itself unchanged by the 6-significant-digit
formatting-and-reparse step; for such vectors the comma-space join and the
comma-split stod parse invert each other exactly. -/
theorem C1_roundtrip_of_exact (v : List ℚ)
    (h : ∀ x ∈ v, stodQ (formatFloat x) = some x) :
    decodeRow (encodeRow v) = some v := by
  cases v with
  | nil => rfl
  | cons x rest =>
    have heq : decodeRow (encodeRow (x :: rest)) =
        decodeRowChars ([] ++ encodeRowChars (x :: rest)) := rfl
    rw [heq]
    exact decode_encode_aux rest x [] (by simp)
      (h x (List.mem_cons_self _ _))
      (fun y hy => h y (List.mem_cons_of_mem _ hy))

/-- Witness for C1 (amended): a vector with a negative value, zero and an
integer - each exactly representable at 6 significant digits - round-trips
bit for bit. -/
theorem C1_roundtrip_of_exact_witness :
    decodeRow (encodeRow [mkRat (-1) 2, mkRat 0 1, mkRat 5 1]) =
      some [mkRat (-1) 2, mkRat 0 1, mkRat 5 1] :=
  C1_roundtrip_of_exact [mkRat (-1) 2, mkRat 0 1, mkRat 5 1] (by decide)
